import Mathlib

/-!
# EMGRecording: the DataCollector of EMGRecording.cpp

A shallow embedding of the device listener `DataCollector`
(src/EMGRecording/EMGRecording.cpp) and of the two globals it touches,
followed by theorems about its callbacks `onEmgData`, `print`, `onConnect`,
`onUnpair` and the helper `openFiles`.

Modelling conventions.

* The fixed-size arrays `emgSamples2[8][250]`, `movingAvg[250]` and
  `timestamps[250]` are total functions on `Nat`; every place where the source
  indexes them is either guarded by the source itself (`counter < 250` in
  `onEmgData`) or checked explicitly by the embedding (`print`, which returns
  `Fault.outOfRange` where the source would read past the end of an array).
* `int` values are `Int` and `uint64_t` values are `Nat`, both unbounded;
  `counter`, which the source only sets to 0 and increments, is a `Nat`. The
  argument `const int8_t* emg` is a function of which `onEmgData` reads the
  entries 0..7. The only `int` arithmetic of the source is `counter++` and the
  products `emgSamples2[j][i]*emgSamples2[j][i]` over slots below `counter`.
* `movingAvg` holds `double`s, each modelled by the rational number it
  represents. The accumulated sum of line 68 is a sum of integers far below
  2^53, hence exact in a `double`. The division of line 72 is rounded:
  `roundDouble` gives the nearest number with 53 significant binary digits, ties
  to even, which is the IEEE 754 quotient wherever that is a normal `double`
  (here the quotients are 0 or lie between 1/60 and 2^40); the exponent range
  of `double` is not modelled.
* An output stream is the list of the values inserted into it with `<<`
  (`Ins`), oldest first; how the stream library renders a `double` or an `int`
  as text is not part of the embedding.
* Line 99 of the source reads `emgFile::cout << ',' << emgSamples2[i][j];`.
  It sits between the insertions into `emgFile` of lines 93 and 102 and writes
  the comma separators of the `.csv` file, so it is read as
  `emgFile << ',' << emgSamples2[i][j];`.
* `std::time(0)` is an input (`now`) of `openFiles`; opening a file is taken to
  succeed.
-/

namespace EMGRecording

/-- One value inserted into an output stream with `<<`. -/
inductive Ins where
  | chr (c : Char)
  | str (s : String)
  | int (v : Int)
  | u64 (v : Nat)
  | dbl (v : ℚ)
  | endl
  | flush
  deriving DecidableEq

/-- The one way a callback can go wrong: reading an array past its end. -/
inductive Fault where
  | outOfRange (index : Nat)
  deriving DecidableEq

/-- The fields of `class DataCollector` (lines 116-122), followed by the
global state its member functions act on: the files on disk, the console
`std::cout`, and the global `int done` (line 19). -/
structure DataCollector where
  /-- Field `std::array<int8_t, 8> emgSamples`. -/
  emgSamples : Nat → Int
  /-- Field `int emgSamples2[8][250]`, indexed `emgSamples2 pod index`. -/
  emgSamples2 : Nat → Nat → Int
  /-- Field `double movingAvg[250]`. -/
  movingAvg : Nat → ℚ
  /-- Field `uint64_t timestamps[250]`. -/
  timestamps : Nat → Nat
  /-- Field `int counter = 0`. -/
  counter : Nat
  /-- Field `std::ofstream emgFile`: the name of the file it has open, if any. -/
  emgFile : Option String
  /-- The contents of every file, by name. -/
  files : String → List Ins
  /-- Everything inserted into `std::cout`. -/
  cout : List Ins
  /-- The global `int done`. -/
  done : Int

/-- The capacity of the sample arrays (the literal 250 of the source). -/
def N : Nat := 250

/-- Insertion into `emgFile`; a stream with no file open discards it. -/
def fileWrite (s : DataCollector) (toks : List Ins) : DataCollector :=
  match s.emgFile with
  | some name => { s with files := Function.update s.files name (s.files name ++ toks) }
  | none => s

/-- Insertion into `std::cout`. -/
def coutWrite (s : DataCollector) (toks : List Ins) : DataCollector :=
  { s with cout := s.cout ++ toks }

/-- The name `"emg-" << timestamp << ".csv"` built by `openFiles`. -/
def emgFileString (timestamp : Int) : String :=
  "emg-" ++ toString timestamp ++ ".csv"

/-- Member `openFiles` (lines 29-40): close `emgFile` if it is open, open
`emg-<now>.csv` for writing (which empties it) and write the header. -/
def openFiles (s : DataCollector) (now : Int) : DataCollector :=
  let s1 : DataCollector := if s.emgFile.isSome then { s with emgFile := none } else s
  let name := emgFileString now
  let s2 : DataCollector :=
    { s1 with emgFile := some name, files := Function.update s1.files name [] }
  fileWrite s2 [Ins.str "timestamp", Ins.endl]

/-- The constructor (lines 23-27): `emgSamples` is zeroed, `counter` starts at
0, `emgFile` starts closed and `openFiles` is called. The three sample arrays
are not initialised by the source, so their contents are parameters. -/
def DataCollector.new (now : Int) (emgSamples2 : Nat → Nat → Int) (movingAvg : Nat → ℚ)
    (timestamps : Nat → Nat) (files : String → List Ins) : DataCollector :=
  openFiles
    { emgSamples := fun _ => 0
      emgSamples2 := emgSamples2
      movingAvg := movingAvg
      timestamps := timestamps
      counter := 0
      emgFile := none
      files := files
      cout := []
      done := 0 }
    now

/-- Member `onUnpair` (lines 43-48): `emgSamples.fill(0)`. -/
def onUnpair (s : DataCollector) : DataCollector :=
  { s with emgSamples := fun _ => 0 }

/-- Member `onConnect` (lines 50-53): `openFiles()`. -/
def onConnect (s : DataCollector) (now : Int) : DataCollector :=
  openFiles s now

/-- The integer nearest to `x`, the even one of the two when `x` lies halfway. -/
def roundHalfEven (x : ℚ) : Int :=
  if x - (⌊x⌋ : ℚ) < 1 / 2 then ⌊x⌋
  else if 1 / 2 < x - (⌊x⌋ : ℚ) then ⌊x⌋ + 1
  else if ⌊x⌋ % 2 = 0 then ⌊x⌋ else ⌊x⌋ + 1

/-- The result of a `double` operation whose exact result is `q`: the nearest
number with 53 significant binary digits, ties to even. With `e` the binary
exponent of `q`, that is `roundHalfEven (|q| * 2^(52 - e)) * 2^(e - 52)`, with
the sign of `q`. -/
def roundDouble (q : ℚ) : ℚ :=
  if q = 0 then 0
  else
    (if q < 0 then -1 else 1) *
      ((roundHalfEven (|q| * (2 : ℚ) ^ (52 - Int.log 2 |q|)) : Int) : ℚ) *
      (2 : ℚ) ^ (Int.log 2 |q| - 52)

/-- Lines 60-62: `for (i < 8) emgSamples2[i][counter] = emg[i]`. -/
def storeEmg (a : Nat → Nat → Int) (counter : Nat) (emg : Nat → Int) : Nat → Nat → Int :=
  (List.range 8).foldl
    (fun a i => Function.update a i (Function.update (a i) counter (emg i))) a

/-- Lines 67-69: `for (j < 8) acc += emgSamples2[j][i]*emgSamples2[j][i]`. -/
def addSquares (a : Nat → Nat → Int) (i : Nat) (acc : ℚ) : ℚ :=
  (List.range 8).foldl (fun acc j => acc + ((a j i * a j i : Int) : ℚ)) acc

/-- Lines 64-71: the accumulator starts at 0 and the loop variable `i` runs
over the 60 values `counter - 60, ..., counter - 1`; the body is guarded by
`i > 0`. -/
def accumulate (a : Nat → Nat → Int) (counter : Nat) : ℚ :=
  (List.range 60).foldl
    (fun (acc : ℚ) (t : Nat) =>
      let i : Int := (counter : Int) - 60 + (t : Int)
      if i > 0 then addSquares a i.toNat acc else acc)
    0

/-- Member `onEmgData` (lines 56-77); the division of line 72 is a `double`
division, so its rounded quotient is what `movingAvg[counter]` receives. -/
def onEmgData (s : DataCollector) (timestamp : Nat) (emg : Nat → Int) : DataCollector :=
  if s.counter < 250 then
    let a := storeEmg s.emgSamples2 s.counter emg
    { s with
      emgSamples2 := a
      movingAvg :=
        Function.update s.movingAvg s.counter (roundDouble (accumulate a s.counter / 60))
      timestamps := Function.update s.timestamps s.counter timestamp
      counter := s.counter + 1 }
  else
    { s with counter := s.counter + 1 }

/-- Lines 96-100: for `i < 8`, `std::cout << '[' << emgSamples2[i][j] << ']'`
and `emgFile << ',' << emgSamples2[i][j]`. -/
def printChannels (s : DataCollector) (j : Nat) : DataCollector :=
  (List.range 8).foldl
    (fun s i =>
      let s := coutWrite s [Ins.chr '[', Ins.int (s.emgSamples2 i j), Ins.chr ']']
      fileWrite s [Ins.chr ',', Ins.int (s.emgSamples2 i j)])
    s

/-- One iteration of the loop of `print` (lines 88-106) for slot `j`, carrying
the local `printed`. Slot `j` is read from arrays of 250 entries. -/
def printBody (st : DataCollector × Int) (j : Nat) : Except Fault (DataCollector × Int) :=
  if j < 250 then
    let s := st.1
    let s := coutWrite s [Ins.chr '\r']
    let s := coutWrite s [Ins.chr '\n', Ins.str "Counter: ", Ins.int s.counter]
    let s := coutWrite s [Ins.str "Moving Avg: ", Ins.dbl (s.movingAvg j)]
    let s := fileWrite s [Ins.dbl (s.movingAvg j)]
    let s := coutWrite s [Ins.chr '\n', Ins.u64 (s.timestamps j)]
    let s := printChannels s j
    let s := coutWrite s [Ins.chr '\n']
    let s := fileWrite s [Ins.endl]
    let s := coutWrite s [Ins.flush]
    Except.ok (s, 1)
  else
    Except.error (Fault.outOfRange j)

/-- Member `print` (lines 83-113). -/
def print (s : DataCollector) : Except Fault DataCollector :=
  match (List.range s.counter).foldlM printBody (s, 0) with
  | Except.ok (s1, printed) =>
    let s2 : DataCollector := if printed = 1 then { s1 with done := 1 } else s1
    Except.ok { s2 with counter := 0 }
  | Except.error e => Except.error e

/-- The events the hub delivers to the listener, and the call of `print`. -/
inductive Event where
  | emgData (timestamp : Nat) (emg : Nat → Int)
  | print
  | connect (now : Int)
  | unpair

/-- One event applied to the collector. -/
def step (s : DataCollector) : Event → Except Fault DataCollector
  | Event.emgData timestamp emg => Except.ok (onEmgData s timestamp emg)
  | Event.print => print s
  | Event.connect now => Except.ok (onConnect s now)
  | Event.unpair => Except.ok (onUnpair s)

/-- A sequence of events applied in order, stopping at the first fault. -/
def run (s : DataCollector) : List Event → Except Fault DataCollector
  | [] => Except.ok s
  | e :: es =>
    match step s e with
    | Except.ok s1 => run s1 es
    | Except.error f => Except.error f

/-! ## Observations used to state the properties -/

/-- The sum of the squares of the 8 channel values stored at slot `k`. -/
def sumSq (a : Nat → Nat → Int) (k : Nat) : Int :=
  ∑ j in Finset.range 8, a j k * a j k

/-- The smoothed value of slot `i` in the words of the specification: the sum
of `sumSq` over the slots `k` with `max 0 (i - 60) ≤ k ≤ i - 1`, divided by
60 (the subtraction of naturals stops at 0). -/
def specSmoothed (a : Nat → Nat → Int) (i : Nat) : ℚ :=
  ((∑ k in Finset.Ico (i - 60) i, sumSq a k : Int) : ℚ) / 60

/-- The state after `toF` has been appended to the file `name` and `toC` to
the console, everything else as in `s`. -/
def emit (s : DataCollector) (name : String) (toF toC : List Ins) : DataCollector :=
  { s with
    files := Function.update s.files name (s.files name ++ toF)
    cout := s.cout ++ toC }

/-- The line of the log for slot `j` in the words of the specification: the
smoothed value, then the 8 channel values in channel order, each preceded by
a comma, then the end of the line. -/
def logRecord (s : DataCollector) (j : Nat) : List Ins :=
  [Ins.dbl (s.movingAvg j),
   Ins.chr ',', Ins.int (s.emgSamples2 0 j), Ins.chr ',', Ins.int (s.emgSamples2 1 j),
   Ins.chr ',', Ins.int (s.emgSamples2 2 j), Ins.chr ',', Ins.int (s.emgSamples2 3 j),
   Ins.chr ',', Ins.int (s.emgSamples2 4 j), Ins.chr ',', Ins.int (s.emgSamples2 5 j),
   Ins.chr ',', Ins.int (s.emgSamples2 6 j), Ins.chr ',', Ins.int (s.emgSamples2 7 j),
   Ins.endl]

/-- What one iteration of the loop of `print` sends to the console for slot
`j`: the counter, the smoothed value, the timestamp and the 8 channel values in
brackets. -/
def coutRecord (s : DataCollector) (j : Nat) : List Ins :=
  [Ins.chr '\r', Ins.chr '\n', Ins.str "Counter: ", Ins.int s.counter,
   Ins.str "Moving Avg: ", Ins.dbl (s.movingAvg j), Ins.chr '\n', Ins.u64 (s.timestamps j),
   Ins.chr '[', Ins.int (s.emgSamples2 0 j), Ins.chr ']',
   Ins.chr '[', Ins.int (s.emgSamples2 1 j), Ins.chr ']',
   Ins.chr '[', Ins.int (s.emgSamples2 2 j), Ins.chr ']',
   Ins.chr '[', Ins.int (s.emgSamples2 3 j), Ins.chr ']',
   Ins.chr '[', Ins.int (s.emgSamples2 4 j), Ins.chr ']',
   Ins.chr '[', Ins.int (s.emgSamples2 5 j), Ins.chr ']',
   Ins.chr '[', Ins.int (s.emgSamples2 6 j), Ins.chr ']',
   Ins.chr '[', Ins.int (s.emgSamples2 7 j), Ins.chr ']',
   Ins.chr '\n', Ins.flush]

/-- The log lines of the slots below `n`, oldest first. -/
def logRecords (s : DataCollector) (n : Nat) : List Ins :=
  ((List.range n).map (logRecord s)).flatten

/-- The console output for the slots below `n`, oldest first. -/
def coutRecords (s : DataCollector) (n : Nat) : List Ins :=
  ((List.range n).map (coutRecord s)).flatten

/-- The number of line ends one inserted value puts into a stream: numbers
are rendered without any. -/
def newlines : Ins → Nat
  | Ins.endl => 1
  | Ins.chr c => if c = '\n' then 1 else 0
  | Ins.str s => s.toList.count '\n'
  | _ => 0

/-- The number of lines of a stream's contents. -/
def lineCount (c : List Ins) : Nat :=
  (c.map newlines).sum

/-- A list of samples, each a timestamp and the 8 channel values, as the
events that deliver them. -/
def emgEvents (l : List (Nat × (Nat → Int))) : List Event :=
  l.map (fun p => Event.emgData p.1 p.2)

/-- The calls `onEmgData` for a list of samples, in order. -/
def feed (s : DataCollector) (l : List (Nat × (Nat → Int))) : DataCollector :=
  l.foldl (fun s p => onEmgData s p.1 p.2) s

/-- The sample with channel values 10, 0, 0, 0, 0, 0, 0, 0. -/
def sample10 : Nat → Int :=
  fun i => if i = 0 then 10 else 0

/-- The sample with channel values 5, 2, 1, 1, 0, 0, 0, 0, whose squares sum
to 31. -/
def sample31 : Nat → Int :=
  fun i => if i = 0 then 5 else if i = 1 then 2 else if i = 2 then 1 else if i = 3 then 1 else 0

/-- A collector constructed at time 0 over zeroed memory and an empty disk. -/
def fresh : DataCollector :=
  DataCollector.new 0 (fun _ _ => 0) (fun _ => 0) (fun _ => 0) (fun _ => [])

/-- A collector holding one sample that arrived at time 1234567, its log open. -/
def oneSlot : DataCollector :=
  onEmgData fresh 1234567 sample10

/-- A collector holding two samples, its log open. -/
def twoSlots : DataCollector :=
  feed fresh [(1, sample10), (2, sample10)]

/-- A collector holding five samples, its log open. -/
def fiveSlots : DataCollector :=
  feed fresh (List.replicate 5 (0, sample10))

/-! ## Definitions for file names, event sequences and value ranges -/

/-- The value of a decimal digit character. -/
def digitVal (c : Char) : Nat :=
  c.toNat - 48

/-- One step of reading a decimal numeral: a minus sign sets the sign flag,
any other character is taken as the next digit. -/
def readStep (st : Bool × Nat) (c : Char) : Bool × Nat :=
  if c = '-' then (true, st.2) else (st.1, 10 * st.2 + digitVal c)

/-- The integer read from the characters of a decimal numeral. -/
def readInt (cs : List Char) : Int :=
  let st := cs.foldl readStep (false, 0)
  if st.1 then -(st.2 : Int) else (st.2 : Int)

/-- Whether an event is a connect. -/
def Event.isConnect : Event → Bool
  | Event.connect _ => true
  | _ => false

/-- The 8 channel values of a sample lie in the range of `int8_t`. -/
def inByteRange (emg : Nat → Int) : Prop :=
  ∀ j, j < 8 → -128 ≤ emg j ∧ emg j ≤ 127

instance (emg : Nat → Int) : Decidable (inByteRange emg) := by
  unfold inByteRange
  infer_instance

/-- The sample an event delivers, if it delivers one, lies in the range of
`int8_t`. -/
def Event.inByteRange : Event → Prop
  | Event.emgData _ emg => EMGRecording.inByteRange emg
  | _ => True

/-- Every slot below `counter` (and inside the arrays) holds values in the
range of `int8_t`. -/
def slotsInByteRange (s : DataCollector) : Prop :=
  ∀ k, k < s.counter → k < 250 → inByteRange (fun j => s.emgSamples2 j k)

/-- The header line `openFiles` writes. -/
def header : List Ins :=
  [Ins.str "timestamp", Ins.endl]

/-- A collector whose 250 slots are all filled. -/
def fullSlots : DataCollector :=
  feed fresh (List.replicate 250 (0, sample10))

/-! ## Rounding to a `double` -/

theorem roundHalfEven_nonneg (x : ℚ) (hx : 0 ≤ x) : 0 ≤ roundHalfEven x := by
  have hf : 0 ≤ ⌊x⌋ := Int.floor_nonneg.mpr hx
  unfold roundHalfEven
  split_ifs <;> omega

theorem roundHalfEven_le (x : ℚ) (M : Int) (hx : x ≤ (M : ℚ)) : roundHalfEven x ≤ M := by
  have hf : ⌊x⌋ ≤ M := by
    have h1 : ((⌊x⌋ : Int) : ℚ) ≤ (M : ℚ) := le_trans (Int.floor_le x) hx
    exact_mod_cast h1
  have hstep : (⌊x⌋ : ℚ) < x → ⌊x⌋ + 1 ≤ M := by
    intro h
    have h1 : ((⌊x⌋ : Int) : ℚ) < (M : ℚ) := lt_of_lt_of_le h hx
    have h2 : ⌊x⌋ < M := by exact_mod_cast h1
    omega
  unfold roundHalfEven
  split_ifs with h1 h2 h3
  · exact hf
  · exact hstep (by linarith)
  · exact hf
  · exact hstep (by linarith)

theorem roundHalfEven_eq_floor (x : ℚ) (f : Int) (h1 : (f : ℚ) ≤ x) (h2 : x - (f : ℚ) < 1 / 2) :
    roundHalfEven x = f := by
  have hf : ⌊x⌋ = f := by
    rw [Int.floor_eq_iff]
    constructor
    · exact h1
    · linarith
  unfold roundHalfEven
  rw [hf, if_pos h2]

theorem roundHalfEven_eq_succ (x : ℚ) (f : Int) (h1 : x < (f : ℚ) + 1)
    (h2 : 1 / 2 < x - (f : ℚ)) : roundHalfEven x = f + 1 := by
  have hf : ⌊x⌋ = f := by
    rw [Int.floor_eq_iff]
    constructor
    · linarith
    · exact h1
  unfold roundHalfEven
  rw [hf, if_neg (by linarith), if_pos h2]

theorem roundDouble_zero : roundDouble 0 = 0 := by
  simp [roundDouble]

theorem roundDouble_of_pos (q : ℚ) (hq : 0 < q) :
    roundDouble q =
      ((roundHalfEven (q * (2 : ℚ) ^ (52 - Int.log 2 q)) : Int) : ℚ) *
        (2 : ℚ) ^ (Int.log 2 q - 52) := by
  unfold roundDouble
  rw [if_neg (ne_of_gt hq), if_neg (not_lt.mpr (le_of_lt hq)), abs_of_pos hq, one_mul]

theorem log_two_eq (q : ℚ) (e : Int) (h1 : (2 : ℚ) ^ e ≤ q) (h2 : q < (2 : ℚ) ^ (e + 1)) :
    Int.log 2 q = e := by
  have hq : 0 < q := lt_of_lt_of_le (zpow_pos (by norm_num) e) h1
  have ha : e ≤ Int.log 2 q := by
    rw [← Int.zpow_le_iff_le_log (by norm_num) hq]
    simpa using h1
  have hb : Int.log 2 q < e + 1 := by
    rw [← Int.lt_zpow_iff_log_lt (by norm_num) hq]
    simpa using h2
  omega

theorem roundDouble_eq (q : ℚ) (e : Int) (h1 : (2 : ℚ) ^ e ≤ q) (h2 : q < (2 : ℚ) ^ (e + 1)) :
    roundDouble q =
      ((roundHalfEven (q * (2 : ℚ) ^ (52 - e)) : Int) : ℚ) * (2 : ℚ) ^ (e - 52) := by
  have hq : 0 < q := lt_of_lt_of_le (zpow_pos (by norm_num) e) h1
  rw [roundDouble_of_pos q hq, log_two_eq q e h1 h2]

theorem roundDouble_nonneg (q : ℚ) (hq : 0 ≤ q) : 0 ≤ roundDouble q := by
  rcases eq_or_lt_of_le hq with h | h
  · rw [← h, roundDouble_zero]
  · rw [roundDouble_of_pos q h]
    apply mul_nonneg
    · have h1 : 0 ≤ roundHalfEven (q * (2 : ℚ) ^ (52 - Int.log 2 q)) :=
        roundHalfEven_nonneg _ (mul_nonneg hq (le_of_lt (zpow_pos (by norm_num) _)))
      exact_mod_cast h1
    · exact le_of_lt (zpow_pos (by norm_num) _)

theorem roundDouble_le_two_pow (q : ℚ) (k : Nat) (hq : 0 ≤ q) (hk : q ≤ (2 : ℚ) ^ k) :
    roundDouble q ≤ (2 : ℚ) ^ k := by
  rcases eq_or_lt_of_le hq with h | h
  · rw [← h, roundDouble_zero]
    positivity
  · rw [roundDouble_of_pos q h]
    have hlog : Int.log 2 q ≤ (k : Int) := by
      have h1 : ((2 : ℕ) : ℚ) ^ Int.log 2 q ≤ q := Int.zpow_log_le_self (by norm_num) h
      have h2 : Int.log 2 q < (k : Int) + 1 := by
        rw [← Int.lt_zpow_iff_log_lt (by norm_num) h]
        have h3 : q < (2 : ℚ) ^ ((k : Int) + 1) := by
          have h4 : (2 : ℚ) ^ ((k : Int) + 1) = 2 * (2 : ℚ) ^ k := by
            rw [zpow_add_one₀ (by norm_num), zpow_natCast]
            ring
          rw [h4]
          have h5 : (0 : ℚ) < (2 : ℚ) ^ k := by positivity
          linarith
        simpa using h3
      omega
    obtain ⟨d, hd⟩ : ∃ d : Nat, (k : Int) - Int.log 2 q = d := ⟨((k : Int) - Int.log 2 q).toNat, by omega⟩
    have he : Int.log 2 q = (k : Int) - d := by omega
    rw [he]
    have hpos : (0 : ℚ) < (2 : ℚ) ^ ((k : Int) - d - 52) := zpow_pos (by norm_num) _
    have hM : q * (2 : ℚ) ^ (52 - ((k : Int) - d)) ≤ (((2 : Int) ^ (52 + d) : Int) : ℚ) := by
      have e1 : (((2 : Int) ^ (52 + d) : Int) : ℚ) = (2 : ℚ) ^ k * (2 : ℚ) ^ (52 - ((k : Int) - d)) := by
        push_cast
        rw [← zpow_natCast (2 : ℚ) k, ← zpow_add₀ (by norm_num), ← zpow_natCast]
        congr 1
        push_cast
        ring
      rw [e1]
      exact mul_le_mul_of_nonneg_right hk (le_of_lt (zpow_pos (by norm_num) _))
    have hr := roundHalfEven_le _ _ hM
    have hr2 : ((roundHalfEven (q * (2 : ℚ) ^ (52 - ((k : Int) - d))) : Int) : ℚ) ≤
        (((2 : Int) ^ (52 + d) : Int) : ℚ) := by exact_mod_cast hr
    calc ((roundHalfEven (q * (2 : ℚ) ^ (52 - ((k : Int) - d))) : Int) : ℚ) *
          (2 : ℚ) ^ ((k : Int) - d - 52)
        ≤ (((2 : Int) ^ (52 + d) : Int) : ℚ) * (2 : ℚ) ^ ((k : Int) - d - 52) :=
          mul_le_mul_of_nonneg_right hr2 (le_of_lt hpos)
      _ = (2 : ℚ) ^ k := by
          push_cast
          rw [← zpow_natCast (2 : ℚ) (52 + d), ← zpow_add₀ (by norm_num), ← zpow_natCast]
          congr 1
          push_cast
          ring

theorem roundDouble_295_3 : roundDouble (295 / 3) = 6919593177470293 / 70368744177664 := by
  rw [roundDouble_eq (295 / 3) 6 (by norm_num) (by norm_num),
    roundHalfEven_eq_floor _ 6919593177470293 (by norm_num) (by norm_num)]
  norm_num

theorem roundDouble_31_60 : roundDouble (31 / 60) = 4653719614949513 / 9007199254740992 := by
  rw [roundDouble_eq (31 / 60) (-1) (by norm_num) (by norm_num),
    roundHalfEven_eq_succ _ 4653719614949512 (by norm_num) (by norm_num)]
  norm_num

theorem roundHalfEven_error (x : ℚ) : |((roundHalfEven x : Int) : ℚ) - x| ≤ 1 / 2 := by
  have h1 : ((⌊x⌋ : Int) : ℚ) ≤ x := Int.floor_le x
  have h2 : x < ((⌊x⌋ : Int) : ℚ) + 1 := Int.lt_floor_add_one x
  unfold roundHalfEven
  rw [abs_le]
  split_ifs with c1 c2 c3
  · constructor <;> linarith
  · push_cast
    constructor <;> linarith
  · have c4 : x - ((⌊x⌋ : Int) : ℚ) = 1 / 2 := le_antisymm (not_lt.mp c2) (not_lt.mp c1)
    constructor <;> linarith
  · have c4 : x - ((⌊x⌋ : Int) : ℚ) = 1 / 2 := le_antisymm (not_lt.mp c2) (not_lt.mp c1)
    push_cast
    constructor <;> linarith

theorem roundDouble_error (q : ℚ) (hq : 0 ≤ q) : |roundDouble q - q| ≤ q / 2 ^ 53 := by
  rcases eq_or_lt_of_le hq with h | h
  · rw [← h, roundDouble_zero]
    simp
  · rw [roundDouble_of_pos q h]
    have hlog : ((2 : ℕ) : ℚ) ^ Int.log 2 q ≤ q := Int.zpow_log_le_self (by norm_num) h
    have hlog2 : (2 : ℚ) ^ Int.log 2 q ≤ q := by simpa using hlog
    have hp : (0 : ℚ) < (2 : ℚ) ^ (Int.log 2 q - 52) := zpow_pos (by norm_num) _
    have hx : q = q * (2 : ℚ) ^ (52 - Int.log 2 q) * (2 : ℚ) ^ (Int.log 2 q - 52) := by
      rw [mul_assoc, ← zpow_add₀ (by norm_num)]
      have e : 52 - Int.log 2 q + (Int.log 2 q - 52) = 0 := by ring
      rw [e, zpow_zero, mul_one]
    have hr := roundHalfEven_error (q * (2 : ℚ) ^ (52 - Int.log 2 q))
    have hd : ((roundHalfEven (q * (2 : ℚ) ^ (52 - Int.log 2 q)) : Int) : ℚ) *
        (2 : ℚ) ^ (Int.log 2 q - 52) - q =
        (((roundHalfEven (q * (2 : ℚ) ^ (52 - Int.log 2 q)) : Int) : ℚ) -
          q * (2 : ℚ) ^ (52 - Int.log 2 q)) * (2 : ℚ) ^ (Int.log 2 q - 52) := by
      rw [sub_mul, ← hx]
    rw [hd, abs_mul, abs_of_pos hp]
    have h53 : (2 : ℚ) ^ (Int.log 2 q - 52) = (2 : ℚ) ^ Int.log 2 q / 2 ^ 52 := by
      rw [zpow_sub₀ (by norm_num)]
      norm_num
    calc |((roundHalfEven (q * (2 : ℚ) ^ (52 - Int.log 2 q)) : Int) : ℚ) -
            q * (2 : ℚ) ^ (52 - Int.log 2 q)| * (2 : ℚ) ^ (Int.log 2 q - 52)
        ≤ 1 / 2 * (2 : ℚ) ^ (Int.log 2 q - 52) :=
          mul_le_mul_of_nonneg_right hr (le_of_lt hp)
      _ = (2 : ℚ) ^ Int.log 2 q / 2 ^ 53 := by
          rw [h53]
          ring
      _ ≤ q / 2 ^ 53 := by
          apply div_le_div_of_nonneg_right hlog2
          positivity

theorem roundDouble_31_60_times : 60 * roundDouble (31 / 60) = 31 + 7 / 2 ^ 51 := by
  rw [roundDouble_31_60]
  norm_num

/-! ## The loops in closed form -/

theorem storeEmg_range (emg : Nat → Int) (c n : Nat) (a : Nat → Nat → Int) (i k : Nat) :
    (List.range n).foldl
        (fun a i => Function.update a i (Function.update (a i) c (emg i))) a i k =
      if i < n ∧ k = c then emg i else a i k := by
  induction n with
  | zero => simp
  | succ n ih =>
    rw [List.range_succ, List.foldl_append]
    simp only [List.foldl_cons, List.foldl_nil, Function.update_apply]
    by_cases hi : i = n
    · subst hi
      by_cases hk : k = c
      · subst hk
        simp
      · simp [hk, ih]
    · have h1 : i < n + 1 ↔ i < n :=
        ⟨fun h => lt_of_le_of_ne (Nat.lt_succ_iff.mp h) hi, fun h => Nat.lt_succ_of_lt h⟩
      rw [if_neg hi, ih]
      simp only [h1]

theorem storeEmg_apply (a : Nat → Nat → Int) (c : Nat) (emg : Nat → Int) (i k : Nat) :
    storeEmg a c emg i k = if i < 8 ∧ k = c then emg i else a i k :=
  storeEmg_range emg c 8 a i k

theorem foldl_add_range {f : Nat → ℚ} (n : Nat) (init : ℚ) :
    (List.range n).foldl (fun acc t => acc + f t) init = init + ∑ t in Finset.range n, f t := by
  induction n with
  | zero => simp
  | succ n ih => simp [List.range_succ, Finset.sum_range_succ, ih, add_assoc]

theorem addSquares_eq (a : Nat → Nat → Int) (i : Nat) (acc : ℚ) :
    addSquares a i acc = acc + (sumSq a i : ℚ) := by
  unfold addSquares sumSq
  rw [foldl_add_range]
  push_cast
  rfl

theorem accumulate_eq_range (a : Nat → Nat → Int) (c : Nat) :
    accumulate a c =
      ∑ t in Finset.range 60,
        if (c : Int) - 60 + (t : Int) > 0 then (sumSq a ((c : Int) - 60 + (t : Int)).toNat : ℚ)
        else 0 := by
  have h : (fun (acc : ℚ) (t : Nat) =>
      let i : Int := (c : Int) - 60 + (t : Int)
      if i > 0 then addSquares a i.toNat acc else acc) =
      fun (acc : ℚ) (t : Nat) => acc + (if (c : Int) - 60 + (t : Int) > 0 then
        (sumSq a ((c : Int) - 60 + (t : Int)).toNat : ℚ) else 0) := by
    funext acc t
    simp only [addSquares_eq]
    split_ifs <;> simp
  unfold accumulate
  rw [h, foldl_add_range, zero_add]

theorem emit_emit (s : DataCollector) (name : String) (f1 c1 f2 c2 : List Ins) :
    emit (emit s name f1 c1) name f2 c2 = emit s name (f1 ++ f2) (c1 ++ c2) := by
  simp [emit, List.append_assoc]

theorem printBody_ok (s : DataCollector) (p : Int) (name : String) (j : Nat)
    (hopen : s.emgFile = some name) (hj : j < 250) :
    printBody (s, p) j = Except.ok (emit s name (logRecord s j) (coutRecord s j), 1) := by
  simp [printBody, hj, printChannels, fileWrite, coutWrite, hopen, emit, logRecord, coutRecord,
    List.range_succ]

theorem logRecord_emit (s : DataCollector) (name : String) (f c : List Ins) (j : Nat) :
    logRecord (emit s name f c) j = logRecord s j := rfl

theorem coutRecord_emit (s : DataCollector) (name : String) (f c : List Ins) (j : Nat) :
    coutRecord (emit s name f c) j = coutRecord s j := rfl

theorem printLoop_ok (s : DataCollector) (name : String) (hopen : s.emgFile = some name)
    (p : Int) (n : Nat) (hn : n ≤ 250) :
    (List.range n).foldlM printBody (s, p) =
      Except.ok (emit s name (logRecords s n) (coutRecords s n), if n = 0 then p else 1) := by
  induction n with
  | zero =>
    simp [logRecords, coutRecords, emit, pure, Except.pure]
  | succ n ih =>
    have hn1 : n ≤ 250 := by omega
    have hlt : n < 250 := by omega
    have hopen1 : (emit s name (logRecords s n) (coutRecords s n)).emgFile = some name := hopen
    rw [List.range_succ, List.foldlM_append, ih hn1]
    simp only [bind, Except.bind, List.foldlM_cons, List.foldlM_nil]
    rw [printBody_ok _ _ name n hopen1 hlt]
    simp [pure, Except.pure, emit_emit, logRecord_emit, coutRecord_emit, logRecords,
      coutRecords, List.range_succ]

theorem print_ok (s : DataCollector) (name : String) (hopen : s.emgFile = some name)
    (hn : s.counter ≤ 250) :
    print s = Except.ok
      { emit s name (logRecords s s.counter) (coutRecords s s.counter) with
        done := if s.counter = 0 then s.done else 1
        counter := 0 } := by
  unfold print
  rw [printLoop_ok s name hopen 0 s.counter hn]
  by_cases h : s.counter = 0
  · simp [h, emit]
  · simp [h, emit]

theorem print_empty (s : DataCollector) (h0 : s.counter = 0) : print s = Except.ok s := by
  cases s with
  | mk e a m t c f fs co d =>
    simp only at h0
    subst h0
    simp [print, pure, Except.pure]

theorem accumulate_eq_Ico (a : Nat → Nat → Int) (c : Nat) :
    accumulate a c = ((∑ k in Finset.Ico (max 1 (c - 60)) c, sumSq a k : Int) : ℚ) := by
  rw [accumulate_eq_range]
  have h : ∀ t : Nat, (if (c : Int) - 60 + (t : Int) > 0 then
      (sumSq a ((c : Int) - 60 + (t : Int)).toNat : ℚ) else 0) =
      if 60 < c + t then (sumSq a (c + t - 60) : ℚ) else 0 := by
    intro t
    by_cases h1 : 60 < c + t
    · have h2 : (c : Int) - 60 + (t : Int) > 0 := by omega
      have h3 : ((c : Int) - 60 + (t : Int)).toNat = c + t - 60 := by omega
      rw [if_pos h1, if_pos h2, h3]
    · have h2 : ¬ ((c : Int) - 60 + (t : Int) > 0) := by omega
      rw [if_neg h1, if_neg h2]
  simp only [h]
  rw [← Finset.sum_filter]
  push_cast
  apply Finset.sum_nbij' (fun t => c + t - 60) (fun k => k + 60 - c)
  · intro t ht
    simp only [Finset.mem_filter, Finset.mem_range, Finset.mem_Ico] at ht ⊢
    omega
  · intro k hk
    simp only [Finset.mem_filter, Finset.mem_range, Finset.mem_Ico] at hk ⊢
    omega
  · intro t ht
    simp only [Finset.mem_filter, Finset.mem_range, Finset.mem_Ico] at ht ⊢
    omega
  · intro k hk
    simp only [Finset.mem_filter, Finset.mem_range, Finset.mem_Ico] at hk ⊢
    omega
  · intro t _
    rfl

/-! ## Frame lemmas for the callbacks -/

theorem openFiles_eq (s : DataCollector) (now : Int) :
    openFiles s now =
      { s with
        emgFile := some (emgFileString now)
        files := Function.update s.files (emgFileString now) [Ins.str "timestamp", Ins.endl] } := by
  unfold openFiles
  by_cases h : s.emgFile.isSome
  · simp [h, fileWrite]
  · simp [h, fileWrite]

theorem onEmgData_counter (s : DataCollector) (ts : Nat) (emg : Nat → Int) :
    (onEmgData s ts emg).counter = s.counter + 1 := by
  unfold onEmgData
  split <;> rfl

theorem onEmgData_env (s : DataCollector) (ts : Nat) (emg : Nat → Int) :
    (onEmgData s ts emg).emgFile = s.emgFile ∧ (onEmgData s ts emg).files = s.files ∧
      (onEmgData s ts emg).cout = s.cout ∧ (onEmgData s ts emg).done = s.done ∧
      (onEmgData s ts emg).emgSamples = s.emgSamples := by
  unfold onEmgData
  split <;> exact ⟨rfl, rfl, rfl, rfl, rfl⟩

theorem onEmgData_emg_other (s : DataCollector) (ts : Nat) (emg : Nat → Int) (j k : Nat)
    (hk : k ≠ s.counter) : (onEmgData s ts emg).emgSamples2 j k = s.emgSamples2 j k := by
  unfold onEmgData
  split
  · simp [storeEmg_apply, hk]
  · rfl

theorem onEmgData_emg_at (s : DataCollector) (ts : Nat) (emg : Nat → Int) (j : Nat)
    (hc : s.counter < 250) (hj : j < 8) :
    (onEmgData s ts emg).emgSamples2 j s.counter = emg j := by
  simp [onEmgData, hc, storeEmg_apply, hj]

theorem onEmgData_movingAvg_other (s : DataCollector) (ts : Nat) (emg : Nat → Int) (k : Nat)
    (hk : k ≠ s.counter) : (onEmgData s ts emg).movingAvg k = s.movingAvg k := by
  unfold onEmgData
  split
  · simp [Function.update_apply, hk]
  · rfl

theorem onEmgData_timestamps_other (s : DataCollector) (ts : Nat) (emg : Nat → Int) (k : Nat)
    (hk : k ≠ s.counter) : (onEmgData s ts emg).timestamps k = s.timestamps k := by
  unfold onEmgData
  split
  · simp [Function.update_apply, hk]
  · rfl

theorem sumSq_congr (a b : Nat → Nat → Int) (k : Nat) (h : ∀ j, j < 8 → a j k = b j k) :
    sumSq a k = sumSq b k := by
  unfold sumSq
  apply Finset.sum_congr rfl
  intro j hj
  rw [h j (Finset.mem_range.mp hj)]

theorem accumulate_congr (a b : Nat → Nat → Int) (c : Nat)
    (h : ∀ k, 0 < k → k < c → ∀ j, j < 8 → a j k = b j k) :
    accumulate a c = accumulate b c := by
  rw [accumulate_eq_Ico, accumulate_eq_Ico]
  congr 1
  apply Finset.sum_congr rfl
  intro k hk
  have hk2 := Finset.mem_Ico.mp hk
  exact sumSq_congr a b k (h k (by omega) hk2.2)

theorem onEmgData_movingAvg_at (s : DataCollector) (ts : Nat) (emg : Nat → Int)
    (hc : s.counter < 250) :
    (onEmgData s ts emg).movingAvg s.counter =
      roundDouble (accumulate s.emgSamples2 s.counter / 60) := by
  have h : accumulate (storeEmg s.emgSamples2 s.counter emg) s.counter =
      accumulate s.emgSamples2 s.counter := by
    apply accumulate_congr
    intro k _ hk j _
    have hne : ¬ (j < 8 ∧ k = s.counter) := by omega
    rw [storeEmg_apply, if_neg hne]
  simp [onEmgData, hc, h]

/-! ## Sequences of samples -/

theorem feed_cons (s : DataCollector) (p : Nat × (Nat → Int)) (l : List (Nat × (Nat → Int))) :
    feed s (p :: l) = feed (onEmgData s p.1 p.2) l := rfl

theorem feed_counter (l : List (Nat × (Nat → Int))) (s : DataCollector) :
    (feed s l).counter = s.counter + l.length := by
  induction l generalizing s with
  | nil => rfl
  | cons p l ih =>
    rw [feed_cons, ih, onEmgData_counter, List.length_cons]
    omega

theorem feed_env (l : List (Nat × (Nat → Int))) (s : DataCollector) :
    (feed s l).emgFile = s.emgFile ∧ (feed s l).files = s.files ∧
      (feed s l).cout = s.cout ∧ (feed s l).done = s.done ∧
      (feed s l).emgSamples = s.emgSamples := by
  induction l generalizing s with
  | nil => exact ⟨rfl, rfl, rfl, rfl, rfl⟩
  | cons p l ih =>
    rw [feed_cons]
    obtain ⟨h1, h2, h3, h4, h5⟩ := ih (onEmgData s p.1 p.2)
    obtain ⟨g1, g2, g3, g4, g5⟩ := onEmgData_env s p.1 p.2
    exact ⟨h1.trans g1, h2.trans g2, h3.trans g3, h4.trans g4, h5.trans g5⟩

theorem feed_emg_below (l : List (Nat × (Nat → Int))) (s : DataCollector) (j k : Nat)
    (hk : k < s.counter) : (feed s l).emgSamples2 j k = s.emgSamples2 j k := by
  induction l generalizing s with
  | nil => rfl
  | cons p l ih =>
    rw [feed_cons, ih _ (by rw [onEmgData_counter]; omega),
      onEmgData_emg_other _ _ _ _ _ (by omega)]

theorem feed_movingAvg_below (l : List (Nat × (Nat → Int))) (s : DataCollector) (k : Nat)
    (hk : k < s.counter) : (feed s l).movingAvg k = s.movingAvg k := by
  induction l generalizing s with
  | nil => rfl
  | cons p l ih =>
    rw [feed_cons, ih _ (by rw [onEmgData_counter]; omega),
      onEmgData_movingAvg_other _ _ _ _ (by omega)]

theorem feed_emg_at (l : List (Nat × (Nat → Int))) (s : DataCollector)
    (hcap : s.counter + l.length ≤ 250) (i : Nat) (hi : i < l.length) (j : Nat) (hj : j < 8) :
    (feed s l).emgSamples2 j (s.counter + i) = l[i].2 j := by
  induction l generalizing s i with
  | nil => simp at hi
  | cons p l ih =>
    rw [feed_cons]
    rw [List.length_cons] at hcap
    cases i with
    | zero =>
      rw [feed_emg_below _ _ _ _ (by rw [onEmgData_counter]; omega)]
      exact onEmgData_emg_at s p.1 p.2 j (by omega) hj
    | succ i =>
      have hi2 : i < l.length := by simpa using hi
      have h := ih (onEmgData s p.1 p.2) (by rw [onEmgData_counter]; omega) i hi2
      rw [onEmgData_counter] at h
      have e : s.counter + (i + 1) = s.counter + 1 + i := by omega
      rw [e, h]
      rfl

theorem feed_movingAvg_at (l : List (Nat × (Nat → Int))) (s : DataCollector)
    (hcap : s.counter + l.length ≤ 250) (i : Nat) (hi : i < l.length) :
    (feed s l).movingAvg (s.counter + i) =
      roundDouble (accumulate (feed s l).emgSamples2 (s.counter + i) / 60) := by
  induction l generalizing s i with
  | nil => simp at hi
  | cons p l ih =>
    rw [feed_cons]
    rw [List.length_cons] at hcap
    cases i with
    | zero =>
      rw [feed_movingAvg_below _ _ _ (by rw [onEmgData_counter]; omega)]
      have h2 : accumulate (feed (onEmgData s p.1 p.2) l).emgSamples2 s.counter =
          accumulate s.emgSamples2 s.counter := by
        apply accumulate_congr
        intro k _ hk j _
        rw [feed_emg_below _ _ _ _ (by rw [onEmgData_counter]; omega),
          onEmgData_emg_other _ _ _ _ _ (by omega)]
      rw [Nat.add_zero, onEmgData_movingAvg_at s p.1 p.2 (by omega), h2]
    | succ i =>
      have hi2 : i < l.length := by simpa using hi
      have h := ih (onEmgData s p.1 p.2) (by rw [onEmgData_counter]; omega) i hi2
      rw [onEmgData_counter] at h
      have e : s.counter + (i + 1) = s.counter + 1 + i := by omega
      rw [e, h]

theorem run_emgEvents (l : List (Nat × (Nat → Int))) (s : DataCollector) :
    run s (emgEvents l) = Except.ok (feed s l) := by
  induction l generalizing s with
  | nil => rfl
  | cons p l ih =>
    simp only [emgEvents, List.map_cons, run, step]
    exact ih _

theorem run_append (l1 l2 : List Event) (s s1 : DataCollector)
    (h : run s l1 = Except.ok s1) : run s (l1 ++ l2) = run s1 l2 := by
  induction l1 generalizing s with
  | nil =>
    simp only [run] at h
    cases h
    rfl
  | cons e l1 ih =>
    simp only [List.cons_append, run] at h ⊢
    cases hs : step s e with
    | error f => rw [hs] at h; cases h
    | ok s2 =>
      rw [hs] at h
      simp only at h ⊢
      exact ih s2 h

theorem new_counter (now : Int) (a : Nat → Nat → Int) (m : Nat → ℚ) (t : Nat → Nat)
    (files : String → List Ins) : (DataCollector.new now a m t files).counter = 0 := by
  rw [DataCollector.new, openFiles_eq]

theorem sumSq_sample10 (a : Nat → Nat → Int) (k : Nat) (h : ∀ j, j < 8 → a j k = sample10 j) :
    sumSq a k = 100 := by
  unfold sumSq
  simp [Finset.sum_range_succ, h, sample10]

theorem lineCount_append (a b : List Ins) : lineCount (a ++ b) = lineCount a + lineCount b := by
  simp [lineCount]

theorem lineCount_logRecords (s : DataCollector) (n : Nat) : lineCount (logRecords s n) = n := by
  induction n with
  | zero => rfl
  | succ n ih =>
    have e : logRecords s (n + 1) = logRecords s n ++ logRecord s n := by
      simp [logRecords, List.range_succ]
    rw [e, lineCount_append, ih]
    simp [logRecord, lineCount, newlines]

/-! ## File names -/

theorem readStep_digitChar (b : Bool) (acc d : Nat) (hd : d < 10) :
    readStep (b, acc) (Nat.digitChar d) = (b, 10 * acc + d) := by
  interval_cases d <;> simp [readStep, Nat.digitChar, digitVal]

theorem foldl_readStep_toDigitsCore (b : Bool) (fuel : Nat) :
    ∀ (n : Nat) (ds : List Char), n < fuel →
      (Nat.toDigitsCore 10 fuel n ds).foldl readStep (b, 0) = ds.foldl readStep (b, n) := by
  induction fuel with
  | zero => intro n ds h; omega
  | succ fuel ih =>
    intro n ds h
    have hd : n % 10 < 10 := Nat.mod_lt _ (by decide)
    by_cases h0 : n / 10 = 0
    · have hn : n % 10 = n := by omega
      simp only [Nat.toDigitsCore, h0, if_true, List.foldl_cons]
      rw [readStep_digitChar b 0 _ hd, hn, Nat.mul_zero, Nat.zero_add]
    · have hlt : n / 10 < fuel := by omega
      simp only [Nat.toDigitsCore, h0, if_false]
      rw [ih (n / 10) _ hlt, List.foldl_cons, readStep_digitChar b _ _ hd]
      have e : 10 * (n / 10) + n % 10 = n := Nat.div_add_mod n 10
      rw [e]

theorem readInt_toString (t : Int) : readInt (toString t).data = t := by
  cases t with
  | ofNat m =>
    show readInt (Nat.toDigits 10 m) = _
    unfold readInt Nat.toDigits
    rw [foldl_readStep_toDigitsCore false (m + 1) m [] (by omega)]
    rfl
  | negSucc m =>
    show readInt ('-' :: Nat.toDigits 10 (m + 1)) = _
    unfold readInt Nat.toDigits
    rw [List.foldl_cons]
    have e : readStep (false, 0) '-' = (true, 0) := by simp [readStep]
    rw [e, foldl_readStep_toDigitsCore true (m + 1 + 1) (m + 1) [] (by omega)]
    rfl

theorem emgFileString_injective (t1 t2 : Int) (h : emgFileString t1 = emgFileString t2) :
    t1 = t2 := by
  unfold emgFileString at h
  have h1 := congrArg String.data h
  simp only [String.data_append] at h1
  have h2 := List.append_cancel_left (List.append_cancel_right h1)
  rw [← readInt_toString t1, ← readInt_toString t2, h2]

/-! ## Faults of `print` -/

theorem printBody_isOk (st : DataCollector × Int) (j : Nat) (hj : j < 250) :
    ∃ s1, printBody st j = Except.ok (s1, 1) := by
  simp [printBody, hj]

theorem printLoop_isOk (n : Nat) (hn : n ≤ 250) (st : DataCollector × Int) :
    ∃ st1, (List.range n).foldlM printBody st = Except.ok st1 := by
  induction n with
  | zero => exact ⟨st, rfl⟩
  | succ n ih =>
    obtain ⟨st1, h1⟩ := ih (by omega)
    obtain ⟨s2, h2⟩ := printBody_isOk st1 n (by omega)
    refine ⟨(s2, 1), ?_⟩
    rw [List.range_succ, List.foldlM_append, h1]
    simp only [bind, Except.bind, List.foldlM_cons, List.foldlM_nil]
    rw [h2]
    rfl

theorem printLoop_fault (n : Nat) (hn : 250 < n) (st : DataCollector × Int) :
    (List.range n).foldlM printBody st = Except.error (Fault.outOfRange 250) := by
  induction n with
  | zero => omega
  | succ n ih =>
    rw [List.range_succ, List.foldlM_append]
    by_cases h : 250 < n
    · rw [ih h]
      rfl
    · have e : n = 250 := by omega
      subst e
      obtain ⟨st1, h1⟩ := printLoop_isOk 250 (le_refl _) st
      rw [h1]
      simp [bind, Except.bind, printBody]

theorem print_fault (s : DataCollector) (h : 250 < s.counter) :
    print s = Except.error (Fault.outOfRange 250) := by
  unfold print
  rw [printLoop_fault s.counter h]

theorem print_counter (s s1 : DataCollector) (h : print s = Except.ok s1) : s1.counter = 0 := by
  unfold print at h
  split at h
  · cases h
    rfl
  · cases h

theorem print_le (s s1 : DataCollector) (h : print s = Except.ok s1) : s.counter ≤ 250 := by
  by_contra hc
  rw [print_fault s (by omega)] at h
  cases h

theorem print_frame (s s1 : DataCollector) (name : String) (hopen : s.emgFile = some name)
    (h : print s = Except.ok s1) :
    s1.emgFile = some name ∧ (∀ other, other ≠ name → s1.files other = s.files other) ∧
      s1.emgSamples2 = s.emgSamples2 ∧ s1.movingAvg = s.movingAvg ∧
      s1.timestamps = s.timestamps := by
  rw [print_ok s name hopen (print_le s s1 h)] at h
  cases h
  refine ⟨hopen, ?_, rfl, rfl, rfl⟩
  intro other ho
  simp [emit, Function.update_apply, ho]

/-! ## Runs, event by event -/

theorem run_cons_emgData (s : DataCollector) (ts : Nat) (emg : Nat → Int) (es : List Event) :
    run s (Event.emgData ts emg :: es) = run (onEmgData s ts emg) es := rfl

theorem run_cons_connect (s : DataCollector) (now : Int) (es : List Event) :
    run s (Event.connect now :: es) = run (onConnect s now) es := rfl

theorem run_cons_unpair (s : DataCollector) (es : List Event) :
    run s (Event.unpair :: es) = run (onUnpair s) es := rfl

theorem run_cons_print (s s1 : DataCollector) (es : List Event) (h : print s = Except.ok s1) :
    run s (Event.print :: es) = run s1 es := by
  simp only [run, step, h]

theorem run_cons_print_fault (s : DataCollector) (es : List Event) (f : Fault)
    (h : print s = Except.error f) : run s (Event.print :: es) = Except.error f := by
  simp only [run, step, h]

/-! ## Further lemmas on logs, slots and bounds -/

theorem openFiles_files_other (s : DataCollector) (now : Int) (other : String)
    (ho : other ≠ emgFileString now) : (openFiles s now).files other = s.files other := by
  rw [openFiles_eq]
  simp [Function.update_apply, ho]

theorem openFiles_files_self (s : DataCollector) (now : Int) :
    (openFiles s now).files (emgFileString now) = header := by
  rw [openFiles_eq]
  simp [header]

theorem new_emgFile (now : Int) (a : Nat → Nat → Int) (m : Nat → ℚ) (t : Nat → Nat)
    (files : String → List Ins) :
    (DataCollector.new now a m t files).emgFile = some (emgFileString now) := by
  rw [DataCollector.new, openFiles_eq]

theorem step_keeps_log (s s1 : DataCollector) (e : Event) (name : String)
    (hno : e.isConnect = false) (hopen : s.emgFile = some name) (h : step s e = Except.ok s1) :
    s1.emgFile = some name ∧ ∀ other, other ≠ name → s1.files other = s.files other := by
  cases e with
  | emgData ts emg =>
    simp only [step] at h
    cases h
    obtain ⟨h1, h2, _⟩ := onEmgData_env s ts emg
    exact ⟨h1.trans hopen, fun other _ => by rw [h2]⟩
  | print =>
    obtain ⟨h1, h2, _⟩ := print_frame s s1 name hopen h
    exact ⟨h1, h2⟩
  | connect now => simp [Event.isConnect] at hno
  | unpair =>
    simp only [step] at h
    cases h
    exact ⟨hopen, fun _ _ => rfl⟩

theorem run_keeps_log (evs : List Event) (s s1 : DataCollector) (name : String)
    (hno : ∀ e, e ∈ evs → e.isConnect = false) (hopen : s.emgFile = some name)
    (h : run s evs = Except.ok s1) :
    s1.emgFile = some name ∧ ∀ other, other ≠ name → s1.files other = s.files other := by
  induction evs generalizing s with
  | nil =>
    simp only [run] at h
    cases h
    exact ⟨hopen, fun _ _ => rfl⟩
  | cons e es ih =>
    simp only [run] at h
    cases hs : step s e with
    | error f => rw [hs] at h; cases h
    | ok s2 =>
      rw [hs] at h
      obtain ⟨g1, g2⟩ := step_keeps_log s s2 e name (hno e (List.mem_cons_self _ _)) hopen hs
      obtain ⟨k1, k2⟩ := ih s2 (fun e1 he => hno e1 (List.mem_cons_of_mem _ he)) g1 h
      exact ⟨k1, fun other ho => (k2 other ho).trans (g2 other ho)⟩

theorem fullSlots_counter : fullSlots.counter = 250 := by
  rw [fullSlots, feed_counter, List.length_replicate]
  rfl

theorem onEmgData_full (s : DataCollector) (ts : Nat) (emg : Nat → Int) (h : 250 ≤ s.counter) :
    (onEmgData s ts emg).emgSamples2 = s.emgSamples2 ∧
      (onEmgData s ts emg).movingAvg = s.movingAvg ∧
      (onEmgData s ts emg).timestamps = s.timestamps := by
  have hn : ¬ s.counter < 250 := by omega
  simp [onEmgData, hn]

theorem onEmgData_sumSq_below (s : DataCollector) (ts : Nat) (emg : Nat → Int) (k : Nat)
    (hk : k ≠ s.counter) :
    sumSq (onEmgData s ts emg).emgSamples2 k = sumSq s.emgSamples2 k :=
  sumSq_congr _ _ k (fun j _ => onEmgData_emg_other s ts emg j k hk)

theorem sumSq_nonneg (a : Nat → Nat → Int) (k : Nat) : 0 ≤ sumSq a k := by
  unfold sumSq
  apply Finset.sum_nonneg
  intro j _
  exact mul_self_nonneg _

theorem onEmgData_movingAvg_Ico (s : DataCollector) (ts : Nat) (emg : Nat → Int)
    (hc : s.counter < 250) :
    (onEmgData s ts emg).movingAvg s.counter =
      roundDouble (((∑ k in Finset.Ico (max 1 (s.counter - 60)) s.counter,
        sumSq (onEmgData s ts emg).emgSamples2 k : Int) : ℚ) / 60) := by
  rw [onEmgData_movingAvg_at s ts emg hc, accumulate_eq_Ico]
  have e : ∑ k in Finset.Ico (max 1 (s.counter - 60)) s.counter,
      sumSq (onEmgData s ts emg).emgSamples2 k =
      ∑ k in Finset.Ico (max 1 (s.counter - 60)) s.counter, sumSq s.emgSamples2 k := by
    apply Finset.sum_congr rfl
    intro k hk
    have hk2 := (Finset.mem_Ico.mp hk).2
    exact onEmgData_sumSq_below s ts emg k (by omega)
  rw [e]

theorem onEmgData_accumulate (s : DataCollector) (ts : Nat) (emg : Nat → Int) :
    accumulate (onEmgData s ts emg).emgSamples2 s.counter =
      accumulate s.emgSamples2 s.counter := by
  apply accumulate_congr
  intro k _ hk j _
  exact onEmgData_emg_other s ts emg j k (by omega)

theorem onEmgData_movingAvg_acc (s : DataCollector) (ts : Nat) (emg : Nat → Int)
    (hc : s.counter < 250) :
    (onEmgData s ts emg).movingAvg s.counter =
      roundDouble (accumulate (onEmgData s ts emg).emgSamples2 s.counter / 60) := by
  rw [onEmgData_accumulate, onEmgData_movingAvg_at s ts emg hc]

theorem sq_le_of_byte (v : Int) (h1 : -128 ≤ v) (h2 : v ≤ 127) :
    0 ≤ v * v ∧ v * v ≤ 16384 := by
  constructor
  · exact mul_self_nonneg v
  · nlinarith

theorem sumSq_bounds (a : Nat → Nat → Int) (k : Nat) (h : inByteRange (fun j => a j k)) :
    0 ≤ sumSq a k ∧ sumSq a k ≤ 131072 := by
  unfold sumSq
  constructor
  · apply Finset.sum_nonneg
    intro j _
    exact mul_self_nonneg _
  · have h1 := Finset.sum_le_card_nsmul (Finset.range 8) (fun j => a j k * a j k) 16384
      (fun j hj => (sq_le_of_byte _ (h j (Finset.mem_range.mp hj)).1
        (h j (Finset.mem_range.mp hj)).2).2)
    simpa using h1

theorem window_bounds (a : Nat → Nat → Int) (c : Nat)
    (h : ∀ k, 0 < k → k < c → inByteRange (fun j => a j k)) :
    0 ≤ ∑ k in Finset.Ico (max 1 (c - 60)) c, sumSq a k ∧
      ∑ k in Finset.Ico (max 1 (c - 60)) c, sumSq a k ≤ 7864320 := by
  have hk : ∀ k ∈ Finset.Ico (max 1 (c - 60)) c, inByteRange (fun j => a j k) := by
    intro k hk
    have hk2 := Finset.mem_Ico.mp hk
    exact h k (by omega) hk2.2
  constructor
  · apply Finset.sum_nonneg
    intro k hk1
    exact (sumSq_bounds a k (hk k hk1)).1
  · have h1 := Finset.sum_le_card_nsmul (Finset.Ico (max 1 (c - 60)) c) (fun k => sumSq a k)
      131072 (fun k hk1 => (sumSq_bounds a k (hk k hk1)).2)
    have hcard : (Finset.Ico (max 1 (c - 60)) c).card ≤ 60 := by
      rw [Nat.card_Ico]
      omega
    have h2 : ((Finset.Ico (max 1 (c - 60)) c).card : Int) ≤ 60 := by exact_mod_cast hcard
    rw [nsmul_eq_mul] at h1
    nlinarith

theorem onEmgData_slotsInByteRange (s : DataCollector) (ts : Nat) (emg : Nat → Int)
    (hs : slotsInByteRange s) (hemg : inByteRange emg) :
    slotsInByteRange (onEmgData s ts emg) := by
  intro k hk hk250 j hj
  rw [onEmgData_counter] at hk
  show -128 ≤ (onEmgData s ts emg).emgSamples2 j k ∧ (onEmgData s ts emg).emgSamples2 j k ≤ 127
  by_cases hkc : k = s.counter
  · subst hkc
    rw [onEmgData_emg_at s ts emg j hk250 hj]
    exact hemg j hj
  · rw [onEmgData_emg_other s ts emg j k hkc]
    exact hs k (by omega) hk250 j hj

theorem step_slotsInByteRange (s s1 : DataCollector) (e : Event) (hs : slotsInByteRange s)
    (he : e.inByteRange) (h : step s e = Except.ok s1) : slotsInByteRange s1 := by
  cases e with
  | emgData ts emg =>
    simp only [step] at h
    cases h
    exact onEmgData_slotsInByteRange s ts emg hs he
  | print =>
    intro k hk
    rw [print_counter s s1 h] at hk
    omega
  | connect now =>
    simp only [step] at h
    cases h
    rw [onConnect, openFiles_eq]
    exact hs
  | unpair =>
    simp only [step] at h
    cases h
    exact hs

theorem run_slotsInByteRange (evs : List Event) (s s1 : DataCollector)
    (hs : slotsInByteRange s) (he : ∀ e, e ∈ evs → e.inByteRange)
    (h : run s evs = Except.ok s1) : slotsInByteRange s1 := by
  induction evs generalizing s with
  | nil =>
    simp only [run] at h
    cases h
    exact hs
  | cons e es ih =>
    simp only [run] at h
    cases hst : step s e with
    | error f => rw [hst] at h; cases h
    | ok s2 =>
      rw [hst] at h
      exact ih s2 (step_slotsInByteRange s s2 e hs (he e (List.mem_cons_self _ _)) hst)
        (fun e1 h1 => he e1 (List.mem_cons_of_mem _ h1)) h

theorem new_slotsInByteRange (now : Int) (a : Nat → Nat → Int) (m : Nat → ℚ) (t : Nat → Nat)
    (files : String → List Ins) : slotsInByteRange (DataCollector.new now a m t files) := by
  intro k hk
  rw [new_counter] at hk
  omega

theorem inByteRange_sample10 : inByteRange sample10 := by
  intro j _
  unfold sample10
  split <;> decide

theorem sumSq_sample31 (a : Nat → Nat → Int) (k : Nat) (h : ∀ j, j < 8 → a j k = sample31 j) :
    sumSq a k = 31 := by
  unfold sumSq
  simp [Finset.sum_range_succ, h, sample31]

/-- The division of line 72 rounds: with the sample 5,2,1,1,0,0,0,0 in slot 1
the sum accumulated for slot 2 is 31, and 60 times the value stored in
`movingAvg[2]` is 31 + 7/2^51, not 31. -/
theorem onEmgData_quotient_is_rounded :
    accumulate (feed fresh [(0, sample10), (1, sample31), (2, sample10)]).emgSamples2 2 = 31 ∧
      60 * (feed fresh [(0, sample10), (1, sample31), (2, sample10)]).movingAvg 2 =
        31 + 7 / 2 ^ 51 := by
  have hc : fresh.counter = 0 := rfl
  have hacc : accumulate
      (feed fresh [(0, sample10), (1, sample31), (2, sample10)]).emgSamples2 2 = 31 := by
    have e : Finset.Ico (max 1 (2 - 60)) 2 = {1} := by decide
    rw [accumulate_eq_Ico, e, Finset.sum_singleton]
    have h1 : sumSq (feed fresh [(0, sample10), (1, sample31), (2, sample10)]).emgSamples2 1 =
        31 := by
      apply sumSq_sample31
      intro j hj
      have h := feed_emg_at [(0, sample10), (1, sample31), (2, sample10)] fresh
        (by rw [hc]; decide) 1 (by decide) j hj
      rw [hc] at h
      exact h
    rw [h1]
    norm_num
  refine ⟨hacc, ?_⟩
  have h := feed_movingAvg_at [(0, sample10), (1, sample31), (2, sample10)] fresh
    (by rw [hc]; decide) 2 (by decide)
  rw [hc] at h
  rw [h, hacc, roundDouble_31_60_times]

/-! ## The properties of the specification -/

/-- C1 (evaluation at the failing input): after two samples 10,0,0,0,0,0,0,0
fed to a fresh collector, slot 0 holds a sample whose squares sum to 100, the
specification's value for `smoothed[1]` is 100/60 = 5/3, and the value
`onEmgData` wrote to `movingAvg[1]` is 0: the loop guard `i > 0` leaves slot 0
out of the sum. -/
theorem C1_slot_zero_left_out :
    sumSq (feed fresh [(0, sample10), (1, sample10)]).emgSamples2 0 = 100 ∧
      specSmoothed (feed fresh [(0, sample10), (1, sample10)]).emgSamples2 1 = 5 / 3 ∧
      (feed fresh [(0, sample10), (1, sample10)]).movingAvg 1 = 0 := by
  have hc : fresh.counter = 0 := rfl
  have h0 : sumSq (feed fresh [(0, sample10), (1, sample10)]).emgSamples2 0 = 100 := by
    apply sumSq_sample10
    intro j hj
    have h := feed_emg_at [(0, sample10), (1, sample10)] fresh (by rw [hc]; decide) 0
      (by decide) j hj
    rw [hc] at h
    exact h
  refine ⟨h0, ?_, ?_⟩
  · unfold specSmoothed
    have e : Finset.Ico (1 - 60) 1 = {0} := by decide
    rw [e, Finset.sum_singleton, h0]
    norm_num
  · have h := feed_movingAvg_at [(0, sample10), (1, sample10)] fresh (by rw [hc]; decide) 1
      (by decide)
    rw [hc] at h
    have e : Finset.Ico (max 1 (1 - 60)) 1 = ∅ := by decide
    rw [h, accumulate_eq_Ico, e, Finset.sum_empty]
    simp [roundDouble_zero]

/-- C2: whenever `counter < 250`, `onEmgData` (a total function) stores the 8
channel values at `emgSamples2[0..7][counter]` and the timestamp at
`timestamps[counter]`, and afterwards `counter` is the old value plus 1. -/
theorem C2_onEmgData_stores (s : DataCollector) (timestamp : Nat) (emg : Nat → Int)
    (h : s.counter < N) :
    (∀ i, i < 8 → (onEmgData s timestamp emg).emgSamples2 i s.counter = emg i) ∧
      (onEmgData s timestamp emg).timestamps s.counter = timestamp ∧
      (onEmgData s timestamp emg).counter = s.counter + 1 := by
  have hc : s.counter < 250 := h
  refine ⟨fun i hi => onEmgData_emg_at s timestamp emg i hc hi, ?_, onEmgData_counter _ _ _⟩
  simp [onEmgData, hc]

/-- C2, at a fresh collector and the sample 10,0,0,0,0,0,0,0 with timestamp 7. -/
theorem C2_onEmgData_stores_witness :
    fresh.counter < N ∧
      (∀ i, i < 8 → (onEmgData fresh 7 sample10).emgSamples2 i fresh.counter = sample10 i) ∧
      (onEmgData fresh 7 sample10).timestamps fresh.counter = 7 ∧
      (onEmgData fresh 7 sample10).counter = fresh.counter + 1 :=
  ⟨by decide, C2_onEmgData_stores fresh 7 sample10 (by decide)⟩

/-- C3 (evaluation at the failing input): 250 samples fed to a newly
constructed collector leave `counter = 250`, and the next `onEmgData` call
leaves `counter = 251`: `counter++` stands outside the guard `counter < 250`,
so the counter passes the capacity of the arrays. -/
theorem C3_counter_passes_capacity (now : Int) (a : Nat → Nat → Int) (m : Nat → ℚ)
    (t : Nat → Nat) (files : String → List Ins) :
    ∃ s250 s251,
      run (DataCollector.new now a m t files)
          (emgEvents (List.replicate 250 (0, sample10))) = Except.ok s250 ∧
        s250.counter = N ∧
        step s250 (Event.emgData 0 sample10) = Except.ok s251 ∧
        s251.counter = N + 1 ∧ ¬ s251.counter ≤ N := by
  have h0 : (DataCollector.new now a m t files).counter = 0 := new_counter now a m t files
  refine ⟨_, _, run_emgEvents _ _, ?_, rfl, ?_, ?_⟩
  · rw [feed_counter, List.length_replicate, h0]
    rfl
  · rw [onEmgData_counter, feed_counter, List.length_replicate, h0]
    rfl
  · rw [onEmgData_counter, feed_counter, List.length_replicate, h0]
    decide

/-- C4: for a collector whose log is open and whose `counter = f` is within
the capacity of the arrays, `print` returns normally, appends to the log
exactly the `f` lines of the slots `0, 1, ..., f - 1` in this order, line `j`
being the line of slot `j`, touches no other file, and leaves `counter = 0`;
when `f = 0` the state after `print` is the state before it, and a second
`print` directly after the first changes nothing. -/
theorem C4_print_appends_filled_slots (s : DataCollector) (name : String)
    (hopen : s.emgFile = some name) (hcap : s.counter ≤ N) :
    ∃ s1, print s = Except.ok s1 ∧
      s1.files name = s.files name ++ ((List.range s.counter).map (logRecord s)).flatten ∧
      ((List.range s.counter).map (logRecord s)).length = s.counter ∧
      (∀ other, other ≠ name → s1.files other = s.files other) ∧
      s1.counter = 0 ∧
      (s.counter = 0 → s1 = s) ∧
      print s1 = Except.ok s1 := by
  refine ⟨_, print_ok s name hopen hcap, ?_, by simp, ?_, rfl, ?_, print_empty _ rfl⟩
  · simp [emit, logRecords]
  · intro other ho
    simp [emit, Function.update_apply, ho]
  · intro h0
    have h1 := print_ok s name hopen hcap
    rw [print_empty s h0] at h1
    exact (Except.ok.inj h1).symm

/-- C4, at a collector holding two samples. -/
theorem C4_print_appends_filled_slots_witness :
    twoSlots.emgFile = some (emgFileString 0) ∧ twoSlots.counter ≤ N ∧
      ∃ s1, print twoSlots = Except.ok s1 ∧
        s1.files (emgFileString 0) =
          twoSlots.files (emgFileString 0) ++
            ((List.range twoSlots.counter).map (logRecord twoSlots)).flatten ∧
        ((List.range twoSlots.counter).map (logRecord twoSlots)).length = twoSlots.counter ∧
        (∀ other, other ≠ emgFileString 0 → s1.files other = twoSlots.files other) ∧
        s1.counter = 0 ∧
        (twoSlots.counter = 0 → s1 = twoSlots) ∧
        print s1 = Except.ok s1 :=
  ⟨rfl, by decide, C4_print_appends_filled_slots twoSlots (emgFileString 0) rfl (by decide)⟩

/-- C5 (evaluation at the failing input): from any state with `counter = 0`,
after 61 samples 10,0,0,0,0,0,0,0 the value in `movingAvg[60]` is the `double`
quotient of 59 * 100 = 5900 by 60, which is 6919593177470293 / 2^46 (about
98.33), not 100: of the 60 slots before slot 60 the loop sums only the slots
1..59. -/
theorem C5_sixty_one_samples (s : DataCollector) (tss : List Nat) (h0 : s.counter = 0)
    (hlen : tss.length = 61) :
    ∃ s1, run s (emgEvents (tss.map (fun t => (t, sample10)))) = Except.ok s1 ∧
      s1.movingAvg 60 = roundDouble (5900 / 60) ∧
      s1.movingAvg 60 = 6919593177470293 / 70368744177664 ∧
      s1.movingAvg 60 ≠ 100 := by
  have hl : (tss.map (fun t => (t, sample10))).length = 61 := by
    rw [List.length_map, hlen]
  have hq : (5900 : ℚ) / 60 = 295 / 3 := by norm_num
  have hv : (feed s (tss.map (fun t => (t, sample10)))).movingAvg 60 =
      roundDouble (5900 / 60) := by
    have h := feed_movingAvg_at (tss.map (fun t => (t, sample10))) s
      (by rw [h0, hl]; decide) 60 (by rw [hl]; decide)
    rw [h0, Nat.zero_add] at h
    rw [h, accumulate_eq_Ico]
    have hs : ∀ k ∈ Finset.Ico (max 1 (60 - 60)) 60,
        sumSq (feed s (tss.map (fun t => (t, sample10)))).emgSamples2 k = 100 := by
      intro k hk
      have hk2 := Finset.mem_Ico.mp hk
      apply sumSq_sample10
      intro j hj
      have hk3 : k < (tss.map (fun t => (t, sample10))).length := by
        rw [hl]; omega
      have h := feed_emg_at (tss.map (fun t => (t, sample10))) s
        (by rw [h0, hl]; decide) k hk3 j hj
      rw [h0, Nat.zero_add] at h
      rw [h, List.getElem_map]
    rw [Finset.sum_congr rfl hs]
    have hsum : (((∑ _k in Finset.Ico (max 1 (60 - 60)) 60, (100 : Int)) : Int) : ℚ) = 5900 := by
      simp
    rw [hsum]
  have hv2 : (feed s (tss.map (fun t => (t, sample10)))).movingAvg 60 =
      6919593177470293 / 70368744177664 := by
    rw [hv, hq, roundDouble_295_3]
  refine ⟨_, run_emgEvents _ _, hv, hv2, ?_⟩
  rw [hv2]
  norm_num

/-- C5, at a fresh collector and the timestamps 0, 1, ..., 60. -/
theorem C5_sixty_one_samples_witness :
    fresh.counter = 0 ∧ (List.range 61).length = 61 ∧
      ∃ s1, run fresh (emgEvents ((List.range 61).map (fun t => (t, sample10)))) =
          Except.ok s1 ∧
        s1.movingAvg 60 = roundDouble (5900 / 60) ∧
        s1.movingAvg 60 = 6919593177470293 / 70368744177664 ∧
        s1.movingAvg 60 ≠ 100 :=
  ⟨rfl, rfl, C5_sixty_one_samples fresh (List.range 61) rfl rfl⟩

/-- C6: one iteration of the loop of `print`, for a slot `j` inside the arrays
and an open log, appends to the log exactly one line: the smoothed value of
slot `j`, then for each channel 0..7 in order a comma and the channel value of
slot `j`, then the end of the line. -/
theorem C6_log_line_format (s : DataCollector) (printed : Int) (name : String) (j : Nat)
    (hopen : s.emgFile = some name) (hj : j < N) :
    ∃ s1, printBody (s, printed) j = Except.ok (s1, 1) ∧
      s1.files name = s.files name ++
        [Ins.dbl (s.movingAvg j),
         Ins.chr ',', Ins.int (s.emgSamples2 0 j), Ins.chr ',', Ins.int (s.emgSamples2 1 j),
         Ins.chr ',', Ins.int (s.emgSamples2 2 j), Ins.chr ',', Ins.int (s.emgSamples2 3 j),
         Ins.chr ',', Ins.int (s.emgSamples2 4 j), Ins.chr ',', Ins.int (s.emgSamples2 5 j),
         Ins.chr ',', Ins.int (s.emgSamples2 6 j), Ins.chr ',', Ins.int (s.emgSamples2 7 j),
         Ins.endl] ∧
      lineCount (s1.files name) = lineCount (s.files name) + 1 := by
  refine ⟨_, printBody_ok s printed name j hopen hj, ?_, ?_⟩
  · simp [emit, logRecord]
  · simp [emit, logRecord, lineCount, newlines]

/-- C6, at slot 1 of a collector holding two samples. -/
theorem C6_log_line_format_witness :
    twoSlots.emgFile = some (emgFileString 0) ∧ 1 < N ∧
      ∃ s1, printBody (twoSlots, 0) 1 = Except.ok (s1, 1) ∧
      s1.files (emgFileString 0) = twoSlots.files (emgFileString 0) ++
        [Ins.dbl (twoSlots.movingAvg 1),
         Ins.chr ',', Ins.int (twoSlots.emgSamples2 0 1),
         Ins.chr ',', Ins.int (twoSlots.emgSamples2 1 1),
         Ins.chr ',', Ins.int (twoSlots.emgSamples2 2 1),
         Ins.chr ',', Ins.int (twoSlots.emgSamples2 3 1),
         Ins.chr ',', Ins.int (twoSlots.emgSamples2 4 1),
         Ins.chr ',', Ins.int (twoSlots.emgSamples2 5 1),
         Ins.chr ',', Ins.int (twoSlots.emgSamples2 6 1),
         Ins.chr ',', Ins.int (twoSlots.emgSamples2 7 1),
         Ins.endl] ∧
      lineCount (s1.files (emgFileString 0)) = lineCount (twoSlots.files (emgFileString 0)) + 1 :=
  ⟨rfl, by decide, C6_log_line_format twoSlots 0 (emgFileString 0) 1 rfl (by decide)⟩

/-- C7 (counterexample): the collector `oneSlot` holds one sample with
timestamp 1234567 in slot 0; `print` appends the line of slot 0 to the log,
and neither that line nor the whole log afterwards contains the timestamp. -/
theorem C7_timestamp_not_in_log :
    oneSlot.counter = 1 ∧ oneSlot.timestamps 0 = 1234567 ∧
      ∃ s1, print oneSlot = Except.ok s1 ∧
        s1.files (emgFileString 0) = oneSlot.files (emgFileString 0) ++ logRecord oneSlot 0 ∧
        Ins.u64 (oneSlot.timestamps 0) ∉ logRecord oneSlot 0 ∧
        Ins.u64 (oneSlot.timestamps 0) ∉ s1.files (emgFileString 0) := by
  have hf : oneSlot.files (emgFileString 0) = [Ins.str "timestamp", Ins.endl] := by
    have h := (onEmgData_env fresh 1234567 sample10).2.1
    show (onEmgData fresh 1234567 sample10).files (emgFileString 0) = _
    rw [h, fresh, DataCollector.new, openFiles_eq]
    simp
  have hfile : ∀ s1, print oneSlot = Except.ok s1 →
      s1.files (emgFileString 0) = oneSlot.files (emgFileString 0) ++ logRecord oneSlot 0 := by
    intro s1 h1
    rw [print_ok oneSlot (emgFileString 0) rfl (by decide)] at h1
    cases h1
    have hc : oneSlot.counter = 1 := rfl
    simp [emit, logRecords, hc, List.range_succ]
  refine ⟨rfl, rfl, _, print_ok oneSlot (emgFileString 0) rfl (by decide), hfile _
    (print_ok oneSlot (emgFileString 0) rfl (by decide)), ?_, ?_⟩
  · simp [logRecord]
  · rw [hfile _ (print_ok oneSlot (emgFileString 0) rfl (by decide)), hf]
    simp [logRecord]

/-- C7 (amended): for a collector whose log is open and whose `counter` is
within the capacity of the arrays, `print` appends to the log the lines of
the filled slots and to the console their console output; the line of a filled
slot `j` contains the smoothed value and the 8 channel values of slot `j` and
no timestamp at all, and the timestamp of slot `j` is in the console output
of slot `j`. -/
theorem C7_record_contents (s : DataCollector) (name : String)
    (hopen : s.emgFile = some name) (hcap : s.counter ≤ N) :
    ∃ s1, print s = Except.ok s1 ∧
      s1.files name = s.files name ++ ((List.range s.counter).map (logRecord s)).flatten ∧
      s1.cout = s.cout ++ ((List.range s.counter).map (coutRecord s)).flatten ∧
      ∀ j, j < s.counter →
        Ins.dbl (s.movingAvg j) ∈ logRecord s j ∧
        (∀ i, i < 8 → Ins.int (s.emgSamples2 i j) ∈ logRecord s j) ∧
        (∀ v, Ins.u64 v ∉ logRecord s j) ∧
        Ins.u64 (s.timestamps j) ∈ coutRecord s j := by
  refine ⟨_, print_ok s name hopen hcap, ?_, ?_, ?_⟩
  · simp [emit, logRecords]
  · simp [emit, coutRecords]
  · intro j _
    refine ⟨by simp [logRecord], ?_, by simp [logRecord], by simp [coutRecord]⟩
    intro i hi
    interval_cases i <;> simp [logRecord]

/-- C7 (amended), at a collector holding one sample. -/
theorem C7_record_contents_witness :
    oneSlot.emgFile = some (emgFileString 0) ∧ oneSlot.counter ≤ N ∧
      ∃ s1, print oneSlot = Except.ok s1 ∧
        s1.files (emgFileString 0) = oneSlot.files (emgFileString 0) ++
          ((List.range oneSlot.counter).map (logRecord oneSlot)).flatten ∧
        s1.cout = oneSlot.cout ++ ((List.range oneSlot.counter).map (coutRecord oneSlot)).flatten ∧
        ∀ j, j < oneSlot.counter →
          Ins.dbl (oneSlot.movingAvg j) ∈ logRecord oneSlot j ∧
          (∀ i, i < 8 → Ins.int (oneSlot.emgSamples2 i j) ∈ logRecord oneSlot j) ∧
          (∀ v, Ins.u64 v ∉ logRecord oneSlot j) ∧
          Ins.u64 (oneSlot.timestamps j) ∈ coutRecord oneSlot j :=
  ⟨rfl, by decide, C7_record_contents oneSlot (emgFileString 0) rfl (by decide)⟩

/-- C8: `openFiles` at time `now` on a collector with `counter = 0`, then 10
samples, then `print`: the run returns normally and the log `emg-<now>.csv`
holds the header line `timestamp` followed by the lines of the slots 0..9,
which carry the channel values of the 10 samples in order; that is 11 lines. -/
theorem C8_ten_samples_then_print (s : DataCollector) (now : Int)
    (l : List (Nat × (Nat → Int))) (h0 : s.counter = 0) (hl : l.length = 10) :
    ∃ s1, run (openFiles s now) (emgEvents l ++ [Event.print]) = Except.ok s1 ∧
      s1.files (emgFileString now) =
        [Ins.str "timestamp", Ins.endl] ++ ((List.range 10).map (logRecord s1)).flatten ∧
      (∀ j (hj : j < l.length), ∀ i, i < 8 → s1.emgSamples2 i j = l[j].2 i) ∧
      lineCount (s1.files (emgFileString now)) = 11 := by
  have hc0 : (openFiles s now).counter = 0 := by rw [openFiles_eq]; exact h0
  have hc : (feed (openFiles s now) l).counter = 10 := by
    rw [feed_counter, hc0, hl]
  have hopen : (feed (openFiles s now) l).emgFile = some (emgFileString now) := by
    rw [(feed_env l (openFiles s now)).1, openFiles_eq]
  have hfiles : (feed (openFiles s now) l).files (emgFileString now) =
      [Ins.str "timestamp", Ins.endl] := by
    rw [(feed_env l (openFiles s now)).2.1, openFiles_eq]
    simp
  have hp := print_ok (feed (openFiles s now) l) (emgFileString now) hopen (by rw [hc]; decide)
  have hrun : run (openFiles s now) (emgEvents l ++ [Event.print]) =
      print (feed (openFiles s now) l) := by
    rw [run_append _ _ _ _ (run_emgEvents l (openFiles s now))]
    simp only [run, step]
    cases print (feed (openFiles s now) l) <;> rfl
  have hcontent : ∀ n, logRecords (feed (openFiles s now) l) n =
      ((List.range n).map (logRecord (feed (openFiles s now) l))).flatten := fun _ => rfl
  refine ⟨_, hrun.trans hp, ?_, ?_, ?_⟩
  · simp only [emit, Function.update_same, hfiles, hc]
    rfl
  · intro j hj i hi
    have h := feed_emg_at l (openFiles s now) (by rw [hc0, hl]; decide) j hj i hi
    rw [hc0, Nat.zero_add] at h
    exact h
  · simp only [emit, Function.update_same, hfiles, hc]
    rw [lineCount_append, lineCount_logRecords]
    rfl

/-- C8, at a fresh collector, time 5 and ten samples 10,0,0,0,0,0,0,0. -/
theorem C8_ten_samples_then_print_witness :
    fresh.counter = 0 ∧ (List.replicate 10 ((0 : Nat), sample10)).length = 10 ∧
      ∃ s1, run (openFiles fresh 5)
          (emgEvents (List.replicate 10 (0, sample10)) ++ [Event.print]) = Except.ok s1 ∧
        lineCount (s1.files (emgFileString 5)) = 11 := by
  obtain ⟨s1, h1, _, _, h4⟩ :=
    C8_ten_samples_then_print fresh 5 (List.replicate 10 (0, sample10)) rfl rfl
  exact ⟨rfl, rfl, s1, h1, h4⟩

/-- C9 (counterexample): a collector holding five samples still has
`counter = 5`, not 0, after `onConnect`. -/
theorem C9_connect_keeps_counter :
    fiveSlots.counter = 5 ∧ (onConnect fiveSlots 1).counter = 5 ∧
      (onConnect fiveSlots 1).counter ≠ 0 := by
  have h : fiveSlots.counter = 5 := rfl
  have h2 : (onConnect fiveSlots 1).counter = 5 := by
    rw [onConnect, openFiles_eq]
    exact h
  refine ⟨h, h2, ?_⟩
  rw [h2]
  decide

/-- C9 (amended): `onConnect` at time `now` opens the log `emg-<now>.csv`,
whose contents become the header line alone, and leaves `counter` and the
three sample arrays as they were. -/
theorem C9_connect_opens_log_only (s : DataCollector) (now : Int) :
    (onConnect s now).emgFile = some (emgFileString now) ∧
      (onConnect s now).files (emgFileString now) = [Ins.str "timestamp", Ins.endl] ∧
      (onConnect s now).counter = s.counter ∧
      (onConnect s now).emgSamples2 = s.emgSamples2 ∧
      (onConnect s now).movingAvg = s.movingAvg ∧
      (onConnect s now).timestamps = s.timestamps := by
  rw [onConnect, openFiles_eq]
  simp

/-- C10: `onUnpair` sets every entry of `emgSamples` to 0 and changes nothing
else: the three sample arrays, `counter`, the open log and the contents of
every file are as before (and so are the console and `done`). -/
theorem C10_unpair_zeroes_snapshot_only (s : DataCollector) :
    (∀ i, (onUnpair s).emgSamples i = 0) ∧
      (onUnpair s).emgSamples2 = s.emgSamples2 ∧
      (onUnpair s).movingAvg = s.movingAvg ∧
      (onUnpair s).timestamps = s.timestamps ∧
      (onUnpair s).counter = s.counter ∧
      (onUnpair s).emgFile = s.emgFile ∧
      (onUnpair s).files = s.files ∧
      (onUnpair s).cout = s.cout ∧
      (onUnpair s).done = s.done :=
  ⟨fun _ => rfl, rfl, rfl, rfl, rfl, rfl, rfl, rfl, rfl⟩

/-- C11 (counterexample): from a fresh collector, connect at time 7, five
samples, disconnect, connect again at time 7: the second connect opens the
very file the first one opened. With a `print` before the disconnect that file
holds 6 lines before the second connect and the header line alone after it. -/
theorem C11_same_second_reuses_log :
    (∃ s1, run fresh (Event.connect 7 :: (emgEvents (List.replicate 5 (0, sample10)) ++
        [Event.unpair, Event.connect 7])) = Except.ok s1 ∧
      (onConnect fresh 7).emgFile = some (emgFileString 7) ∧
      s1.emgFile = some (emgFileString 7)) ∧
    (∃ s2 s3, run fresh (Event.connect 7 :: (emgEvents (List.replicate 5 (0, sample10)) ++
        [Event.print, Event.unpair])) = Except.ok s2 ∧
      lineCount (s2.files (emgFileString 7)) = 6 ∧
      step s2 (Event.connect 7) = Except.ok s3 ∧
      s3.files (emgFileString 7) = header) := by
  constructor
  · refine ⟨onConnect (onUnpair (feed (onConnect fresh 7) (List.replicate 5 (0, sample10)))) 7,
      ?_, ?_, ?_⟩
    · rw [run_cons_connect, run_append _ _ _ _ (run_emgEvents _ _), run_cons_unpair,
        run_cons_connect]
      rfl
    · rw [onConnect, openFiles_eq]
    · rw [onConnect, openFiles_eq]
  · have hopen : (feed (onConnect fresh 7) (List.replicate 5 (0, sample10))).emgFile =
        some (emgFileString 7) := by
      rw [(feed_env _ _).1, onConnect, openFiles_eq]
    have hc : (feed (onConnect fresh 7) (List.replicate 5 (0, sample10))).counter = 5 := by
      rw [feed_counter, onConnect, openFiles_eq]
      rfl
    have hfiles : (feed (onConnect fresh 7) (List.replicate 5 (0, sample10))).files
        (emgFileString 7) = header := by
      rw [(feed_env _ _).2.1, onConnect, openFiles_files_self]
    have hp := print_ok _ (emgFileString 7) hopen (by rw [hc]; decide)
    have hsp : ∃ sp, print (feed (onConnect fresh 7) (List.replicate 5 (0, sample10))) =
        Except.ok sp ∧ lineCount (sp.files (emgFileString 7)) = 6 := by
      refine ⟨_, hp, ?_⟩
      simp only [emit, Function.update_same, hfiles, hc]
      rw [lineCount_append, lineCount_logRecords]
      rfl
    obtain ⟨sp, hsp1, hsp2⟩ := hsp
    refine ⟨onUnpair sp, onConnect (onUnpair sp) 7, ?_, hsp2, rfl, openFiles_files_self _ 7⟩
    rw [run_cons_connect, run_append _ _ _ _ (run_emgEvents _ _), run_cons_print _ _ _ hsp1,
      run_cons_unpair]
    rfl

/-- C11 (amended): `onConnect` at time `now` leaves `emgFile` open on
`emg-<now>.csv`, whose contents become the header line alone, and leaves every
file of another name untouched; two clock values give the same file name only
if they are equal. So for connect at `t1`, any samples, disconnect, connect at
`t2` with `t1 ≠ t2`, the second connect opens a file of another name than the
first, holding the header line, and the file the first connect opened still
holds what the first connect wrote. -/
theorem C11_distinct_clock_distinct_log (s : DataCollector) (t1 t2 : Int)
    (l : List (Nat × (Nat → Int))) (ht : t1 ≠ t2) :
    ((onConnect s t2).emgFile = some (emgFileString t2) ∧
      (onConnect s t2).files (emgFileString t2) = [Ins.str "timestamp", Ins.endl] ∧
      ∀ other, other ≠ emgFileString t2 → (onConnect s t2).files other = s.files other) ∧
    emgFileString t2 ≠ emgFileString t1 ∧
    ∃ s1, run s (Event.connect t1 :: (emgEvents l ++ [Event.unpair, Event.connect t2])) =
        Except.ok s1 ∧
      s1.emgFile = some (emgFileString t2) ∧
      s1.files (emgFileString t2) = [Ins.str "timestamp", Ins.endl] ∧
      s1.files (emgFileString t1) = [Ins.str "timestamp", Ins.endl] := by
  have hne : emgFileString t2 ≠ emgFileString t1 := fun h =>
    ht (emgFileString_injective t2 t1 h).symm
  refine ⟨⟨?_, openFiles_files_self s t2, fun other ho => openFiles_files_other s t2 other ho⟩,
    hne, onConnect (onUnpair (feed (onConnect s t1) l)) t2, ?_, ?_, openFiles_files_self _ t2, ?_⟩
  · rw [onConnect, openFiles_eq]
  · rw [run_cons_connect, run_append _ _ _ _ (run_emgEvents _ _), run_cons_unpair,
      run_cons_connect]
    rfl
  · rw [onConnect, openFiles_eq]
  · rw [onConnect, openFiles_files_other _ t2 _ hne.symm]
    show (feed (onConnect s t1) l).files (emgFileString t1) = _
    rw [(feed_env _ _).2.1]
    exact openFiles_files_self s t1

/-- C11 (amended), at a fresh collector, clock values 7 and 8 and five samples. -/
theorem C11_distinct_clock_distinct_log_witness :
    (7 : Int) ≠ 8 ∧ emgFileString 8 ≠ emgFileString 7 ∧
      ∃ s1, run fresh (Event.connect 7 :: (emgEvents (List.replicate 5 (0, sample10)) ++
          [Event.unpair, Event.connect 8])) = Except.ok s1 ∧
        s1.emgFile = some (emgFileString 8) ∧
        s1.files (emgFileString 8) = [Ins.str "timestamp", Ins.endl] ∧
        s1.files (emgFileString 7) = [Ins.str "timestamp", Ins.endl] :=
  ⟨by decide,
    (C11_distinct_clock_distinct_log fresh 7 8 (List.replicate 5 (0, sample10)) (by decide)).2⟩

/-- C12 (counterexample): a freshly constructed collector (time 0, empty disk)
has its log `emg-0.csv` open, and the file holds the header line. -/
theorem C12_constructor_opens_log :
    fresh.emgFile = some (emgFileString 0) ∧ fresh.emgFile ≠ none ∧
      fresh.files (emgFileString 0) = [Ins.str "timestamp", Ins.endl] := by
  have h : fresh.emgFile = some (emgFileString 0) := new_emgFile _ _ _ _ _
  refine ⟨h, ?_, ?_⟩
  · rw [h]
    exact Option.some_ne_none _
  · exact openFiles_files_self _ 0

/-- C12 (amended): a collector constructed at time `now` has the log
`emg-<now>.csv` open, holding the header line; after any sequence of events
without a connect that returns normally, that same log is the open one and
every file of another name is as it was before the construction, so no
further log has been opened. -/
theorem C12_no_log_opened_without_connect (now : Int) (a : Nat → Nat → Int) (m : Nat → ℚ)
    (t : Nat → Nat) (files : String → List Ins) (evs : List Event) (s1 : DataCollector)
    (hno : ∀ e, e ∈ evs → e.isConnect = false)
    (hrun : run (DataCollector.new now a m t files) evs = Except.ok s1) :
    (DataCollector.new now a m t files).emgFile = some (emgFileString now) ∧
      (DataCollector.new now a m t files).files (emgFileString now) =
        [Ins.str "timestamp", Ins.endl] ∧
      s1.emgFile = some (emgFileString now) ∧
      ∀ other, other ≠ emgFileString now → s1.files other = files other := by
  have hopen := new_emgFile now a m t files
  obtain ⟨h1, h2⟩ := run_keeps_log evs _ s1 _ hno hopen hrun
  refine ⟨hopen, openFiles_files_self _ now, h1, ?_⟩
  intro other ho
  rw [h2 other ho, DataCollector.new, openFiles_files_other _ now other ho]

/-- C12 (amended), at a fresh collector that receives two samples and a
disconnect. -/
theorem C12_no_log_opened_without_connect_witness :
    (∀ e, e ∈ emgEvents [(1, sample10), (2, sample10)] ++ [Event.unpair] →
        e.isConnect = false) ∧
      run fresh (emgEvents [(1, sample10), (2, sample10)] ++ [Event.unpair]) =
        Except.ok (onUnpair twoSlots) ∧
      (onUnpair twoSlots).emgFile = some (emgFileString 0) ∧
      ∀ other, other ≠ emgFileString 0 → (onUnpair twoSlots).files other = [] :=
  have hno : ∀ e, e ∈ emgEvents [(1, sample10), (2, sample10)] ++ [Event.unpair] →
      e.isConnect = false := by
    intro e he
    simp only [emgEvents, List.map_cons, List.map_nil, List.cons_append, List.nil_append,
      List.mem_cons, List.mem_singleton, List.not_mem_nil, or_false] at he
    rcases he with h | h | h <;> subst h <;> rfl
  ⟨hno, rfl,
    (C12_no_log_opened_without_connect 0 (fun _ _ => 0) (fun _ => 0) (fun _ => 0) (fun _ => [])
      (emgEvents [(1, sample10), (2, sample10)] ++ [Event.unpair]) (onUnpair twoSlots)
      hno rfl).2.2⟩

/-- C13 (evaluation at the failing input): a newly constructed collector that
receives 250 samples, one more sample and then `print`: the 251 calls of
`onEmgData` return normally and leave `counter = 251`, and `print`, whose loop
runs over `j < counter`, reads index 250 of arrays of 250 entries. -/
theorem C13_print_reads_past_the_arrays (now : Int) (a : Nat → Nat → Int) (m : Nat → ℚ)
    (t : Nat → Nat) (files : String → List Ins) :
    (∃ s1, run (DataCollector.new now a m t files)
        (emgEvents (List.replicate 250 (0, sample10)) ++ [Event.emgData 0 sample10]) =
          Except.ok s1 ∧ s1.counter = 251) ∧
      run (DataCollector.new now a m t files)
        (emgEvents (List.replicate 250 (0, sample10)) ++ [Event.emgData 0 sample10, Event.print]) =
          Except.error (Fault.outOfRange 250) := by
  have hc : (onEmgData (feed (DataCollector.new now a m t files)
      (List.replicate 250 (0, sample10))) 0 sample10).counter = 251 := by
    rw [onEmgData_counter, feed_counter, new_counter, List.length_replicate]
  constructor
  · refine ⟨_, ?_, hc⟩
    rw [run_append _ _ _ _ (run_emgEvents _ _), run_cons_emgData]
    rfl
  · rw [run_append _ _ _ _ (run_emgEvents _ _), run_cons_emgData]
    exact run_cons_print_fault _ _ _ (print_fault _ (by rw [hc]; decide))

/-- C14: `onEmgData` called with `counter = i` leaves every slot `k ≠ i` of
`emgSamples2`, `movingAvg` and `timestamps` as it was; hence no sequence of
further samples changes a smoothed value (or a channel value) stored below
`counter`; and when `i ≥ 250` the three arrays are unchanged altogether. -/
theorem C14_onEmgData_touches_one_slot (s : DataCollector) (timestamp : Nat)
    (emg : Nat → Int) :
    (∀ k, k ≠ s.counter →
        (∀ j, (onEmgData s timestamp emg).emgSamples2 j k = s.emgSamples2 j k) ∧
        (onEmgData s timestamp emg).movingAvg k = s.movingAvg k ∧
        (onEmgData s timestamp emg).timestamps k = s.timestamps k) ∧
      (∀ (l : List (Nat × (Nat → Int))) k, k < s.counter →
        (feed s l).movingAvg k = s.movingAvg k ∧
        ∀ j, (feed s l).emgSamples2 j k = s.emgSamples2 j k) ∧
      (N ≤ s.counter →
        (onEmgData s timestamp emg).emgSamples2 = s.emgSamples2 ∧
        (onEmgData s timestamp emg).movingAvg = s.movingAvg ∧
        (onEmgData s timestamp emg).timestamps = s.timestamps) := by
  refine ⟨?_, ?_, onEmgData_full s timestamp emg⟩
  · intro k hk
    exact ⟨fun j => onEmgData_emg_other s timestamp emg j k hk,
      onEmgData_movingAvg_other s timestamp emg k hk,
      onEmgData_timestamps_other s timestamp emg k hk⟩
  · intro l k hk
    exact ⟨feed_movingAvg_below l s k hk, fun j => feed_emg_below l s j k hk⟩

/-- C14, at slot 0 of a collector holding two samples and at a collector whose
250 slots are filled. -/
theorem C14_onEmgData_touches_one_slot_witness :
    (0 ≠ twoSlots.counter ∧ (onEmgData twoSlots 9 sample10).movingAvg 0 = twoSlots.movingAvg 0) ∧
      (N ≤ fullSlots.counter ∧
        (onEmgData fullSlots 9 sample10).emgSamples2 = fullSlots.emgSamples2) :=
  ⟨⟨by decide,
      ((C14_onEmgData_touches_one_slot twoSlots 9 sample10).1 0 (by decide)).2.1⟩,
    ⟨le_of_eq fullSlots_counter.symm,
      ((C14_onEmgData_touches_one_slot fullSlots 9 sample10).2.2
        (le_of_eq fullSlots_counter.symm)).1⟩⟩

/-- C15: for `counter = i < 250`, the sum `onEmgData` has accumulated when it
reaches line 72 is the sum of `sumSq` over the slots `k` with
`max 1 (i - 60) ≤ k ≤ i - 1`, and the value written to `movingAvg[i]` is the
`double` quotient of that sum by 60, so that 60 times it differs from the sum
by at most the sum over 2^53; it is 0 for `i ≤ 1`; it is the same for
any other state and sample that agree on the slots `0 < k < i` (so it depends
neither on slot 0 nor on the sample being stored); and for `i ≥ 61` it is the
`double` quotient by 60 of the sum over the 60 slots `i - 60 .. i - 1`, the
value of the specification. -/
theorem C15_moving_average_skips_slot_zero (s : DataCollector) (timestamp : Nat)
    (emg : Nat → Int) (hc : s.counter < N) :
    accumulate (onEmgData s timestamp emg).emgSamples2 s.counter =
        ((∑ k in Finset.Ico (max 1 (s.counter - 60)) s.counter,
          sumSq (onEmgData s timestamp emg).emgSamples2 k : Int) : ℚ) ∧
      (onEmgData s timestamp emg).movingAvg s.counter =
        roundDouble (accumulate (onEmgData s timestamp emg).emgSamples2 s.counter / 60) ∧
      |60 * (onEmgData s timestamp emg).movingAvg s.counter -
          ((∑ k in Finset.Ico (max 1 (s.counter - 60)) s.counter,
            sumSq (onEmgData s timestamp emg).emgSamples2 k : Int) : ℚ)| ≤
        ((∑ k in Finset.Ico (max 1 (s.counter - 60)) s.counter,
          sumSq (onEmgData s timestamp emg).emgSamples2 k : Int) : ℚ) / 2 ^ 53 ∧
      (s.counter ≤ 1 → (onEmgData s timestamp emg).movingAvg s.counter = 0) ∧
      (∀ (s2 : DataCollector) (timestamp2 : Nat) (emg2 : Nat → Int),
        s2.counter = s.counter →
        (∀ k, 0 < k → k < s.counter → ∀ j, j < 8 → s2.emgSamples2 j k = s.emgSamples2 j k) →
        (onEmgData s2 timestamp2 emg2).movingAvg s.counter =
          (onEmgData s timestamp emg).movingAvg s.counter) ∧
      (61 ≤ s.counter →
        (onEmgData s timestamp emg).movingAvg s.counter =
          roundDouble (specSmoothed (onEmgData s timestamp emg).emgSamples2 s.counter)) := by
  have hc1 : s.counter < 250 := hc
  have hI := onEmgData_movingAvg_Ico s timestamp emg hc1
  refine ⟨accumulate_eq_Ico _ _, onEmgData_movingAvg_acc s timestamp emg hc1, ?_, ?_, ?_, ?_⟩
  · have hz : (0 : ℚ) ≤ ((∑ k in Finset.Ico (max 1 (s.counter - 60)) s.counter,
        sumSq (onEmgData s timestamp emg).emgSamples2 k : Int) : ℚ) := by
      have h : (0 : Int) ≤ ∑ k in Finset.Ico (max 1 (s.counter - 60)) s.counter,
          sumSq (onEmgData s timestamp emg).emgSamples2 k :=
        Finset.sum_nonneg (fun k _ => sumSq_nonneg _ k)
      exact_mod_cast h
    have herr := roundDouble_error _ (div_nonneg hz (by norm_num : (0 : ℚ) ≤ 60))
    rw [hI]
    rw [abs_le] at herr ⊢
    obtain ⟨h1, h2⟩ := herr
    constructor
    · linarith
    · linarith
  · intro h1
    have e : Finset.Ico (max 1 (s.counter - 60)) s.counter = ∅ := by
      apply Finset.Ico_eq_empty
      omega
    rw [hI, e, Finset.sum_empty]
    simp [roundDouble_zero]
  · intro s2 ts2 emg2 h2 hagree
    have hc2 : s2.counter < 250 := by omega
    have h3 := onEmgData_movingAvg_at s2 ts2 emg2 hc2
    rw [h2] at h3
    rw [h3, onEmgData_movingAvg_at s timestamp emg hc1,
      accumulate_congr s2.emgSamples2 s.emgSamples2 s.counter hagree]
  · intro h61
    have e : max 1 (s.counter - 60) = s.counter - 60 := by omega
    rw [hI, e]
    rfl

/-- C15, at a collector holding two samples. -/
theorem C15_moving_average_skips_slot_zero_witness :
    twoSlots.counter < N ∧
      accumulate (onEmgData twoSlots 9 sample10).emgSamples2 twoSlots.counter =
        ((∑ k in Finset.Ico (max 1 (twoSlots.counter - 60)) twoSlots.counter,
          sumSq (onEmgData twoSlots 9 sample10).emgSamples2 k : Int) : ℚ) ∧
      (onEmgData twoSlots 9 sample10).movingAvg twoSlots.counter =
        roundDouble
          (accumulate (onEmgData twoSlots 9 sample10).emgSamples2 twoSlots.counter / 60) :=
  ⟨by decide, (C15_moving_average_skips_slot_zero twoSlots 9 sample10 (by decide)).1,
    (C15_moving_average_skips_slot_zero twoSlots 9 sample10 (by decide)).2.1⟩

/-- C16: a collector constructed over arbitrary memory receives any sequence
of events whose samples are in the range -128..127 and that returns normally,
and then one more such sample while `counter < 250`. Then every value stored in
a slot below the new `counter` has a square between 0 and 16384; the sum
accumulated when line 72 is reached is an integer between 0 and 7864320, which
is below 2^31; and the value written to `movingAvg[counter]`, the `double`
quotient of that sum by 60, is between 0 and 131072. -/
theorem C16_smoothed_bounds (now : Int) (a : Nat → Nat → Int) (m : Nat → ℚ) (t : Nat → Nat)
    (files : String → List Ins) (evs : List Event) (s : DataCollector) (timestamp : Nat)
    (emg : Nat → Int)
    (hev : ∀ e, e ∈ evs → e.inByteRange)
    (hrun : run (DataCollector.new now a m t files) evs = Except.ok s)
    (hemg : inByteRange emg) (hc : s.counter < N) :
    (∀ k, k ≤ s.counter → ∀ j, j < 8 →
        0 ≤ (onEmgData s timestamp emg).emgSamples2 j k *
            (onEmgData s timestamp emg).emgSamples2 j k ∧
          (onEmgData s timestamp emg).emgSamples2 j k *
            (onEmgData s timestamp emg).emgSamples2 j k ≤ 16384) ∧
      (∃ z : Int,
        accumulate (onEmgData s timestamp emg).emgSamples2 s.counter = (z : ℚ) ∧
        0 ≤ z ∧ z ≤ 7864320 ∧ z < 2 ^ 31 ∧
        (onEmgData s timestamp emg).movingAvg s.counter = roundDouble ((z : ℚ) / 60)) ∧
      0 ≤ (onEmgData s timestamp emg).movingAvg s.counter ∧
      (onEmgData s timestamp emg).movingAvg s.counter ≤ 131072 := by
  have hc1 : s.counter < 250 := hc
  have hs : slotsInByteRange s :=
    run_slotsInByteRange evs _ s (new_slotsInByteRange now a m t files) hev hrun
  have hs1 : slotsInByteRange (onEmgData s timestamp emg) :=
    onEmgData_slotsInByteRange s timestamp emg hs hemg
  have hI := onEmgData_movingAvg_Ico s timestamp emg hc1
  have hw := window_bounds (onEmgData s timestamp emg).emgSamples2 s.counter
    (fun k _ hk => hs1 k (by rw [onEmgData_counter]; omega) (by omega))
  have hz0 : (0 : ℚ) ≤ ((∑ k in Finset.Ico (max 1 (s.counter - 60)) s.counter,
      sumSq (onEmgData s timestamp emg).emgSamples2 k : Int) : ℚ) := by exact_mod_cast hw.1
  have hz1 : ((∑ k in Finset.Ico (max 1 (s.counter - 60)) s.counter,
      sumSq (onEmgData s timestamp emg).emgSamples2 k : Int) : ℚ) ≤ 7864320 := by
    exact_mod_cast hw.2
  have hq0 : (0 : ℚ) ≤ ((∑ k in Finset.Ico (max 1 (s.counter - 60)) s.counter,
      sumSq (onEmgData s timestamp emg).emgSamples2 k : Int) : ℚ) / 60 :=
    div_nonneg hz0 (by norm_num)
  have hq1 : ((∑ k in Finset.Ico (max 1 (s.counter - 60)) s.counter,
      sumSq (onEmgData s timestamp emg).emgSamples2 k : Int) : ℚ) / 60 ≤ (2 : ℚ) ^ 17 := by
    rw [div_le_iff₀ (by norm_num)]
    calc ((∑ k in Finset.Ico (max 1 (s.counter - 60)) s.counter,
          sumSq (onEmgData s timestamp emg).emgSamples2 k : Int) : ℚ) ≤ 7864320 := hz1
      _ = (2 : ℚ) ^ 17 * 60 := by norm_num
  refine ⟨?_, ⟨_, accumulate_eq_Ico _ _, hw.1, hw.2, lt_of_le_of_lt hw.2 (by norm_num), hI⟩,
    ?_, ?_⟩
  · intro k hk j hj
    have h := hs1 k (by rw [onEmgData_counter]; omega) (by omega) j hj
    exact sq_le_of_byte _ h.1 h.2
  · rw [hI]
    exact roundDouble_nonneg _ hq0
  · rw [hI]
    have h := roundDouble_le_two_pow _ 17 hq0 hq1
    have e : (2 : ℚ) ^ 17 = 131072 := by norm_num
    rw [e] at h
    exact h

/-- C16, at a fresh collector that has received two samples 10,0,0,0,0,0,0,0
and receives a third. -/
theorem C16_smoothed_bounds_witness :
    (∀ e, e ∈ emgEvents [(1, sample10), (2, sample10)] → e.inByteRange) ∧
      run fresh (emgEvents [(1, sample10), (2, sample10)]) = Except.ok twoSlots ∧
      inByteRange sample10 ∧ twoSlots.counter < N ∧
      0 ≤ (onEmgData twoSlots 3 sample10).movingAvg twoSlots.counter ∧
      (onEmgData twoSlots 3 sample10).movingAvg twoSlots.counter ≤ 131072 :=
  have hev : ∀ e, e ∈ emgEvents [(1, sample10), (2, sample10)] → e.inByteRange := by
    intro e he
    simp only [emgEvents, List.map_cons, List.map_nil, List.mem_cons, List.mem_singleton,
      List.not_mem_nil, or_false] at he
    rcases he with h | h <;> subst h <;> exact inByteRange_sample10
  ⟨hev, rfl, inByteRange_sample10, by decide,
    (C16_smoothed_bounds 0 (fun _ _ => 0) (fun _ => 0) (fun _ => 0) (fun _ => [])
      (emgEvents [(1, sample10), (2, sample10)]) twoSlots 3 sample10 hev rfl
      inByteRange_sample10 (by decide)).2.2⟩

end EMGRecording
